import Mathlib

/-!
# chaos task_service: a shallow embedding of `task_service.cpp`

The file embeds `chaos/task_service/task_service.cpp` (class `task_service_t`):
the constructor, `start`, `stop`, `post_async_stop_signal`, `is_run_on_service`,
`exec_task`, `set_stop_signal`, `post`, `register_timer`, `register_io_event`
and `remove_fd_from_epoll`.

* Sequential member functions are pure functions on the record `task_service_t`.
* `exec_task` is the body of every worker thread. It is embedded as a step
  function on a per-thread control state (`Worker`), one step per block of the
  loop, so that the threads of a service can be interleaved.
* `Sys` and `step` put a service, its worker threads and the calls of client
  threads together; `run` folds a schedule (a list of events). The steps of
  different threads interleave freely; one step of a thread is one block of
  `exec_task` (the loop test, the timer pass, the I/O wait, the drain by
  `fetch_task`, the test that leaves the inner loop, each read and each store of
  `m_fetch_num_per_loop` in the computation of the fetch number, the invocation of
  one callable, the code after the loop).
* The collaborators whose code lives in other files (`task_queue_t`,
  `timer_manager_t`, `io_multiplex_handler_t`, `thread_group_t`) are modelled
  from the specification; the macros `MIN_TASK_FETCH_NUM`, `MAX_TASK_FETCH_NUM`
  and the default argument of `post` are parameters (`Consts`).
-/

namespace chaos
namespace task_service

/-! ## Data model -/

/-- Constants declared in `task_service.h`, taken as parameters: the two fetch
bounds (values of the 32-bit type of `m_fetch_num_per_loop`) and the default
value of the parameter `exec_local_` of `post`. -/
structure Consts where
  MIN_TASK_FETCH_NUM : Nat
  MAX_TASK_FETCH_NUM : Nat
  EXEC_LOCAL_DEFAULT : Bool
deriving DecidableEq, Repr

/-- Identity of a calling thread: a thread created by `start` (numbered by its
position in the thread group) or any other thread of the process. -/
inductive thread_id where
  | client (k : Nat)
  | worker (i : Nat)
deriving DecidableEq, Repr

/-- Arguments of `register_timer`; the callback is named by a number. -/
structure Timer where
  interval : Nat
  callback : Nat
  persist : Bool
  start_time : Nat
deriving DecidableEq, Repr

/-- Arguments of `register_io_event`; callback and argument are named by numbers. -/
structure IoEvent where
  fd : Nat
  event_type_flag : Int
  callback : Nat
  cb_arg : Nat
  is_persist : Bool
deriving DecidableEq, Repr

/-- A call that the body of a user callable makes into the service it runs on. -/
inductive Call where
  | post (id : Nat) (exec_local_ : Bool)
  | register_timer (t : Timer)
  | register_io_event (e : IoEvent)
  | remove_fd_from_epoll (fd : Nat)
deriving DecidableEq, Repr

/-- An `async_method_t`: the bound member functions that `task_service.cpp`
itself creates with `bind_memfunc`, and user callables. A user callable is
named by `id`; `body` lists the calls it makes into the service when it runs
(a callable posted by such a body makes none itself). -/
inductive Task where
  | set_stop_signal (signal_ : Bool)
  | timer_register (t : Timer)
  | io_register (e : IoEvent)
  | io_remove (fd : Nat)
  | user (id : Nat) (body : List Call)
deriving DecidableEq, Repr

/-- Observation of the two phases of a callable: `(*it)()` and `it->release()`. -/
inductive Trace where
  | called (m : Task)
  | released (m : Task)
deriving DecidableEq, Repr

/-- Modelled from the spec: `task_queue_t`, a FIFO container of callables,
optionally lock-protected. -/
structure task_queue_t where
  lock : Bool
  tasks : List Task
deriving DecidableEq, Repr

/-- Modelled from the spec: `timer_manager_t`, a set of registered timers and a
cached "now". -/
structure timer_manager_t where
  lock : Bool
  cached_time : Nat
  timers : List Timer
deriving DecidableEq, Repr

/-- Modelled from the spec: `io_multiplex_handler_t`, the registered descriptors. -/
structure io_multiplex_handler_t where
  lock : Bool
  events : List IoEvent
deriving DecidableEq, Repr

/-- The fields of `task_service_t`. `m_thread_group` holds the numbers of the
threads of the group. `trace` is a ghost field: the invocations and releases of
callables performed so far, in order. -/
structure task_service_t where
  m_started : Bool
  m_service_name : String
  m_stop_signal : Bool
  m_thread_num : Int
  m_fetch_num_per_loop : Nat
  m_thread_group : List Nat
  m_task_queue : task_queue_t
  m_timer_manager : timer_manager_t
  m_io_handler : io_multiplex_handler_t
  trace : List Trace
deriving DecidableEq, Repr

/-! ## Collaborators -/

/-- Modelled from the spec: `task_queue_t::initialize(lock)` fixes the locking mode. -/
def task_queue_t.initialise (q : task_queue_t) (lock_flag : Bool) : task_queue_t :=
  { q with lock := lock_flag }

/-- Modelled from the spec: `task_queue_t::push` appends at the tail. -/
def task_queue_t.push (q : task_queue_t) (m : Task) : task_queue_t :=
  { q with tasks := q.tasks ++ [m] }

/-- Modelled from the spec: `task_queue_t::size`. -/
def task_queue_t.size (q : task_queue_t) : Nat := q.tasks.length

/-- Modelled from the spec: `task_queue_t::empty`. -/
def task_queue_t.empty (q : task_queue_t) : Bool := q.tasks.isEmpty

/-- Modelled from the spec: `task_queue_t::fetch_task(tasks, all_task_num, fetch_num)`
drains up to `fetch_num` callables from the head of the queue, in FIFO order, and
reports the total number of callables in the queue at drain time (a `uint32_t`).
Result: the drained batch, the reported total, the remaining queue. -/
def task_queue_t.fetch_task (q : task_queue_t) (fetch_num : Nat) :
    List Task × Nat × task_queue_t :=
  (q.tasks.take fetch_num, q.tasks.length % 2 ^ 32, { q with tasks := q.tasks.drop fetch_num })

/-- Modelled from the spec: `task_queue_t::clear_all_queue`. -/
def task_queue_t.clear_all_queue (q : task_queue_t) : task_queue_t :=
  { q with tasks := [] }

/-- Modelled from the spec: `timer_manager_t::initialize(lock)` fixes the locking mode. -/
def timer_manager_t.initialise (tm : timer_manager_t) (lock_flag : Bool) : timer_manager_t :=
  { tm with lock := lock_flag }

/-- Modelled from the spec: `timer_manager_t::flush_time` advances the cached time
to the clock reading `now`. -/
def timer_manager_t.flush_time (tm : timer_manager_t) (now : Nat) : timer_manager_t :=
  { tm with cached_time := now }

/-- Modelled from the spec: `timer_manager_t::exec` runs every callback whose
deadline has passed; a one-shot timer is dropped, a persistent one is re-armed. The
callbacks themselves are user code that does not call into the service. -/
def timer_manager_t.exec (tm : timer_manager_t) : timer_manager_t :=
  { tm with
    timers := tm.timers.filterMap fun t =>
      if t.start_time + t.interval ≤ tm.cached_time then
        (if t.persist then some { t with start_time := tm.cached_time } else none)
      else some t }

/-- Modelled from the spec: `timer_manager_t::register_timer`. -/
def timer_manager_t.register_timer (tm : timer_manager_t) (t : Timer) : timer_manager_t :=
  { tm with timers := tm.timers ++ [t] }

/-- Modelled from the spec: `timer_manager_t::clear` drops every registered timer. -/
def timer_manager_t.clear (tm : timer_manager_t) : timer_manager_t :=
  { tm with timers := [] }

/-- Modelled from the spec: `timer_manager_t::size`. -/
def timer_manager_t.size (tm : timer_manager_t) : Nat := tm.timers.length

/-- Modelled from the spec: `io_multiplex_handler_t::initialize(lock)`. -/
def io_multiplex_handler_t.initialise (io : io_multiplex_handler_t) (lock_flag : Bool) :
    io_multiplex_handler_t :=
  { io with lock := lock_flag }

/-- Modelled from the spec: `io_multiplex_handler_t::register_io_event`. -/
def io_multiplex_handler_t.register_io_event (io : io_multiplex_handler_t) (e : IoEvent) :
    io_multiplex_handler_t :=
  { io with events := io.events ++ [e] }

/-- Modelled from the spec: `io_multiplex_handler_t::remove_fd_from_epoll`. -/
def io_multiplex_handler_t.remove_fd_from_epoll (io : io_multiplex_handler_t) (fd : Nat) :
    io_multiplex_handler_t :=
  { io with events := io.events.filter fun e => e.fd != fd }

/-- Modelled from the spec: `io_multiplex_handler_t::wait_io_notification` returns
the number of registered descriptors that became ready; `ready` is how many the
outside world made ready. -/
def io_multiplex_handler_t.wait_io_notification (io : io_multiplex_handler_t) (ready : Nat) :
    Nat :=
  min ready io.events.length

/-- Modelled from the spec: `thread_group_t::add`; the new thread is numbered by
its position in the group. -/
def thread_group_add (g : List Nat) : List Nat := g ++ [g.length]

/-- Modelled from the spec: `thread_group_t::check_is_self`, membership of the
calling thread in the group. -/
def thread_group_check_is_self (g : List Nat) : thread_id → Bool
  | thread_id.client _ => false
  | thread_id.worker i => g.contains i

/-- Modelled from the spec: `thread_group_t::join_all` returns once every thread of
the group has finished and deletes the thread objects. -/
def thread_group_join_all (_g : List Nat) : List Nat := []

/-! ## Sequential member functions -/

/-- The constructor `task_service_t::task_service_t(service_name_)`. -/
def ctor (service_name_ : String) : task_service_t :=
  { m_started := false
    m_service_name := service_name_
    m_stop_signal := false
    m_thread_num := 0
    m_fetch_num_per_loop := 0xffffffff
    m_thread_group := []
    m_task_queue := { lock := false, tasks := [] }
    m_timer_manager := { lock := false, cached_time := 0, timers := [] }
    m_io_handler := { lock := false, events := [] }
    trace := [] }

/-- The loop `for (int i = 0; i < m_thread_num; ++i)` of `start`, at index `i` with
`r` iterations left. `new_ok i` tells whether `new thread_t` of iteration `i`
yields a thread object. Result: whether the loop ran to its end, and the group. -/
def start_add (new_ok : Nat → Bool) (i : Nat) : Nat → List Nat → Bool × List Nat
  | 0, g => (true, g)
  | r + 1, g =>
    if new_ok i then start_add new_ok (i + 1) r (thread_group_add g) else (false, g)

/-- Member `task_service_t::start(thread_num_)` up to its return; the threads that
`exec_all(start_thread)` launches are the `Worker`s of `Sys`. -/
def start (s : task_service_t) (thread_num_ : Int) (new_ok : Nat → Bool) :
    Int × task_service_t :=
  if s.m_started then (-1, s)
  else
    let s1 := { s with m_thread_num := thread_num_ }
    match start_add new_ok 0 s1.m_thread_num.toNat s1.m_thread_group with
    | (false, g) => (-1, { s1 with m_thread_group := g })
    | (true, g) =>
      let lock_flag := if s1.m_thread_num ≤ (1 : Int) then false else true
      (0, { s1 with
            m_thread_group := g
            m_task_queue := s1.m_task_queue.initialise true
            m_timer_manager := s1.m_timer_manager.initialise lock_flag
            m_io_handler := s1.m_io_handler.initialise lock_flag
            m_started := true })

/-- Member `task_service_t::is_run_on_service`, for the calling thread `self`. -/
def is_run_on_service (s : task_service_t) (self : thread_id) : Bool :=
  thread_group_check_is_self s.m_thread_group self

/-- Member `task_service_t::set_stop_signal`. -/
def set_stop_signal (s : task_service_t) (signal_ : Bool) : task_service_t :=
  { s with m_stop_signal := signal_ }

/-- Ghost: record that callable `m` is being invoked. -/
def called (m : Task) (s : task_service_t) : task_service_t :=
  { s with trace := s.trace ++ [Trace.called m] }

/-- The call `release()` on a callable; only its occurrence is observed. -/
def released (m : Task) (s : task_service_t) : task_service_t :=
  { s with trace := s.trace ++ [Trace.released m] }

/-- What a callable does when invoked, its `body` left aside: a bound member
function is applied to the object it is bound to. -/
def invoke_plain (m : Task) (s : task_service_t) : task_service_t :=
  match m with
  | Task.set_stop_signal b => set_stop_signal s b
  | Task.timer_register t => { s with m_timer_manager := s.m_timer_manager.register_timer t }
  | Task.io_register e => { s with m_io_handler := s.m_io_handler.register_io_event e }
  | Task.io_remove fd => { s with m_io_handler := s.m_io_handler.remove_fd_from_epoll fd }
  | Task.user _ _ => s

/-- Member `task_service_t::post` for a callable whose body makes no call into the
service (the callables that a `body` posts). -/
def post_plain (s : task_service_t) (self : thread_id) (async_method_ : Task)
    (exec_local_ : Bool) : Int × task_service_t :=
  if exec_local_ && is_run_on_service s self then
    (0, released async_method_ (invoke_plain async_method_ (called async_method_ s)))
  else
    (0, { s with m_task_queue := s.m_task_queue.push async_method_ })

/-- One call of the body of a user callable running on thread `self`: `post`, or
one of the three registration members (whose code is repeated here on
`post_plain`; see `register_timer`, `register_io_event`, `remove_fd_from_epoll`). -/
def do_call (self : thread_id) (s : task_service_t) : Call → task_service_t
  | Call.post id exec_local_ => (post_plain s self (Task.user id []) exec_local_).2
  | Call.register_timer t =>
    let is_allow_exec_local := if s.m_thread_num > (1 : Int) then false else true
    (post_plain s self (Task.timer_register t) is_allow_exec_local).2
  | Call.register_io_event e =>
    let is_allow_exec_local := if s.m_thread_num > (1 : Int) then false else true
    (post_plain s self (Task.io_register e) is_allow_exec_local).2
  | Call.remove_fd_from_epoll fd =>
    let is_allow_exec_local := if s.m_thread_num > (1 : Int) then false else true
    (post_plain s self (Task.io_remove fd) is_allow_exec_local).2

/-- Invocation `(*it)()` of a callable on thread `self`. -/
def invoke (self : thread_id) (m : Task) (s : task_service_t) : task_service_t :=
  match m with
  | Task.user _ body => body.foldl (do_call self) s
  | m => invoke_plain m s

/-- Member `task_service_t::post(async_method_, ext_data_, prior_, exec_local_)`
called on thread `self`. `ext_data_` and `prior_` are not used by the code. The
signal to the condition variables (`USE_COND_VAR`) changes no field. -/
def post (s : task_service_t) (self : thread_id) (async_method_ : Task) (exec_local_ : Bool) :
    Int × task_service_t :=
  if exec_local_ && is_run_on_service s self then
    (0, released async_method_ (invoke self async_method_ (called async_method_ s)))
  else
    (0, { s with m_task_queue := s.m_task_queue.push async_method_ })

/-- Member `task_service_t::post_async_stop_signal`. -/
def post_async_stop_signal (c : Consts) (s : task_service_t) (self : thread_id) :
    Int × task_service_t :=
  (0, (post s self (Task.set_stop_signal true) c.EXEC_LOCAL_DEFAULT).2)

/-- Member `task_service_t::clear_all_task`. -/
def clear_all_task (s : task_service_t) : Int × task_service_t :=
  (0, { s with m_task_queue := s.m_task_queue.clear_all_queue })

/-- Member `task_service_t::register_timer`. -/
def register_timer (s : task_service_t) (self : thread_id) (t : Timer) : task_service_t :=
  let is_allow_exec_local := if s.m_thread_num > (1 : Int) then false else true
  (post s self (Task.timer_register t) is_allow_exec_local).2

/-- Member `task_service_t::register_io_event`. -/
def register_io_event (s : task_service_t) (self : thread_id) (e : IoEvent) : task_service_t :=
  let is_allow_exec_local := if s.m_thread_num > (1 : Int) then false else true
  (post s self (Task.io_register e) is_allow_exec_local).2

/-- Member `task_service_t::remove_fd_from_epoll`. -/
def remove_fd_from_epoll (s : task_service_t) (self : thread_id) (fd : Nat) : task_service_t :=
  let is_allow_exec_local := if s.m_thread_num > (1 : Int) then false else true
  (post s self (Task.io_remove fd) is_allow_exec_local).2

/-- First part of `task_service_t::stop`, up to the call of `join_all`, on thread
`self`: `some r` when `stop` returns `r` at once, `none` when it goes on to
`join_all`. -/
def stop_enter (c : Consts) (s : task_service_t) (self : thread_id) :
    Option Int × task_service_t :=
  if !s.m_started then (some (-1), s)
  else (none, (post_async_stop_signal c s self).2)

/-- State of `stop` once `join_all` has returned, at the point where the two
assertions are evaluated. -/
def stop_joined (s : task_service_t) : task_service_t :=
  { s with
    m_thread_group := thread_group_join_all s.m_thread_group
    m_thread_num := 0
    m_fetch_num_per_loop := 0xffffffff }

/-- The two assertions of `stop`, evaluated on the state `stop_joined`. -/
def stop_asserts (s : task_service_t) : Bool :=
  (0 == s.m_timer_manager.size) && (0 == s.m_task_queue.size)

/-- Second part of `task_service_t::stop`, from the return of `join_all` to
`return 0` (the assertions, see `stop_asserts`, change no field). -/
def stop_finish (s : task_service_t) : Int × task_service_t :=
  (0, { stop_joined s with m_started := false })

/-! ## The worker loop `exec_task` -/

/-- Program points of `exec_task`. -/
inductive Pc where
  | entry   -- before the locals are set
  | head    -- at the test of the outer `while`
  | timers  -- inner loop: `flush_time`, `get_cached_time`, `exec`
  | io      -- inner loop: `wait_io_notification`
  | fetch   -- inner loop: `fetch_task`
  | check   -- inner loop: the test that breaks out, or the sleep
  | adjust    -- line 171 and the store of line 173
  | zero_test -- line 174: the read of `m_fetch_num_per_loop` in `if (!m_fetch_num_per_loop)`
  | set_min   -- line 176: the store of `MIN_TASK_FETCH_NUM`
  | max_test  -- line 179: the read in `if (m_fetch_num_per_loop > MAX_TASK_FETCH_NUM)`
  | set_max   -- line 181: the store of `MAX_TASK_FETCH_NUM`
  | run     -- the `for` loop over the drained callables
  | fin     -- after the outer loop: `clear` and the assertion
  | done    -- returned
deriving DecidableEq, Repr

/-- Locals of one activation of `exec_task`, with its program point. `tasks` is
the part of the drained batch that the iterator has not passed yet. -/
structure Worker where
  pc : Pc
  tasks : List Task
  all_task_num : Nat
  thread_num : Nat
  wake_num : Nat
deriving DecidableEq, Repr

/-- A thread launched by `exec_all(start_thread)`, about to enter `exec_task`. -/
def Worker.fresh : Worker :=
  { pc := Pc.entry, tasks := [], all_task_num := 0, thread_num := 0, wake_num := 0 }

/-- The block "calc the fetch_num_per_loop" of `exec_task` (lines 171-183) read as
sequential code, with no other thread writing the field meanwhile: the new value of
`m_fetch_num_per_loop`, given the locals `all_task_num` and `thread_num` and the
current value `cur`. In `exec_task_step` the block is not one step: each read and
each store of the shared field is a step of its own. -/
def calc_fetch_num (c : Consts) (all_task_num thread_num cur : Nat) : Nat :=
  if thread_num ≠ 1 then
    let f1 := all_task_num / thread_num
    let f2 := if f1 = 0 then c.MIN_TASK_FETCH_NUM else f1
    if f2 > c.MAX_TASK_FETCH_NUM then c.MAX_TASK_FETCH_NUM else f2
  else cur

/-- One step of `exec_task(thd_)` run by thread number `self` (`thd_` is the
thread's own object, never `NULL`). `ready` and `now` are what the outside world
supplies to this step: descriptors made ready, and the clock. Result: the
thread's new control state, the service, and `false` when the assertion at the
end of `exec_task` fails. -/
def exec_task_step (c : Consts) (self ready now : Nat) (w : Worker) (s : task_service_t) :
    Worker × task_service_t × Bool :=
  match w.pc with
  | Pc.entry =>
    let w1 := { w with tasks := [], all_task_num := 0, thread_num := s.m_thread_group.length }
    if w1.thread_num = 0 then ({ w1 with pc := Pc.done }, s, true)
    else ({ w1 with pc := Pc.head }, s, true)
  | Pc.head =>
    if !s.m_stop_signal || !s.m_task_queue.empty then
      ({ w with tasks := [], pc := Pc.timers }, s, true)
    else ({ w with pc := Pc.fin }, s, true)
  | Pc.timers =>
    ({ w with pc := Pc.io },
     { s with m_timer_manager := (s.m_timer_manager.flush_time now).exec }, true)
  | Pc.io =>
    ({ w with wake_num := s.m_io_handler.wait_io_notification ready, pc := Pc.fetch }, s, true)
  | Pc.fetch =>
    match s.m_task_queue.fetch_task s.m_fetch_num_per_loop with
    | (batch, total, q) =>
      ({ w with tasks := w.tasks ++ batch, all_task_num := total, pc := Pc.check },
       { s with m_task_queue := q }, true)
  | Pc.check =>
    if w.wake_num ≠ 0 || w.tasks.length ≠ 0 || s.m_stop_signal then
      ({ w with pc := Pc.adjust }, s, true)
    else ({ w with pc := Pc.timers }, s, true)
  | Pc.adjust =>
    if w.thread_num ≠ 1 then
      ({ w with pc := Pc.zero_test },
       { s with m_fetch_num_per_loop := w.all_task_num / w.thread_num }, true)
    else ({ w with pc := Pc.run }, s, true)
  | Pc.zero_test =>
    if s.m_fetch_num_per_loop = 0 then ({ w with pc := Pc.set_min }, s, true)
    else ({ w with pc := Pc.max_test }, s, true)
  | Pc.set_min =>
    ({ w with pc := Pc.max_test }, { s with m_fetch_num_per_loop := c.MIN_TASK_FETCH_NUM }, true)
  | Pc.max_test =>
    if s.m_fetch_num_per_loop > c.MAX_TASK_FETCH_NUM then ({ w with pc := Pc.set_max }, s, true)
    else ({ w with pc := Pc.run }, s, true)
  | Pc.set_max =>
    ({ w with pc := Pc.run }, { s with m_fetch_num_per_loop := c.MAX_TASK_FETCH_NUM }, true)
  | Pc.run =>
    match w.tasks with
    | [] => ({ w with pc := Pc.head }, s, true)
    | m :: rest =>
      ({ w with tasks := rest }, released m (invoke (thread_id.worker self) m (called m s)), true)
  | Pc.fin =>
    let s1 := { s with m_timer_manager := s.m_timer_manager.clear }
    ({ w with pc := Pc.done }, s1, 0 == s1.m_task_queue.size)
  | Pc.done => (w, s, true)

/-- Program points of the block that computes `m_fetch_num_per_loop` (lines 171-183). -/
def Pc.in_adjust : Pc → Bool
  | Pc.adjust => true
  | Pc.zero_test => true
  | Pc.set_min => true
  | Pc.max_test => true
  | Pc.set_max => true
  | _ => false

/-- Program points of that block after the store of line 173 and before its end: the
thread has written the raw quotient and has not finished bringing it into range. -/
def Pc.mid_adjust : Pc → Bool
  | Pc.zero_test => true
  | Pc.set_min => true
  | Pc.max_test => true
  | Pc.set_max => true
  | _ => false

/-- A thread runs the block that computes `m_fetch_num_per_loop` on its own, from
where it stands to the end of the block, in at most `fuel` steps. -/
def exec_adjust_block (c : Consts) (self : Nat) : Nat → Worker → task_service_t →
    Worker × task_service_t
  | 0, w, s => (w, s)
  | fuel + 1, w, s =>
    if w.pc.in_adjust then
      exec_adjust_block c self fuel (exec_task_step c self 0 0 w s).1
        (exec_task_step c self 0 0 w s).2.1
    else (w, s)

/-! ## A service with its threads -/

/-- What can happen next: a call made by a client thread (a thread that is not in
the group), the return of `join_all` inside `stop`, or one step of a worker. -/
inductive Ev where
  | start (thread_num_ : Int)
  | stop_call
  | stop_join
  | post (m : Task) (exec_local_ : Bool)
  | register_timer (t : Timer)
  | register_io_event (e : IoEvent)
  | remove_fd_from_epoll (fd : Nat)
  | worker (i ready now : Nat)
deriving DecidableEq, Repr

/-- A service, the threads of its group, and the controlling client thread.
`joining`: a client is inside `stop`, blocked in `join_all`. `aborted`: an
`assert` failed. `start_ret`, `stop_ret`: status returned by the last completed
call of `start` and `stop`. -/
structure Sys where
  svc : task_service_t
  workers : List Worker
  joining : Bool
  aborted : Bool
  start_ret : Option Int
  stop_ret : Option Int
deriving DecidableEq, Repr

/-- A freshly constructed service; no thread yet. -/
def Sys.init (service_name_ : String) : Sys :=
  { svc := ctor service_name_, workers := [], joining := false, aborted := false,
    start_ret := none, stop_ret := none }

/-- The client thread that makes the calls of a schedule. -/
def the_client : thread_id := thread_id.client 0

/-- Every thread of the group has returned from `exec_task`. -/
def all_done (ws : List Worker) : Bool := ws.all fun w => w.pc == Pc.done

/-- One event. `new thread_t` always yields an object. A call of `start` launches
one thread per member of the group; `stop` is a call (`stop_call`: up to
`join_all`) and a return (`stop_join`: possible once every thread has returned).
While a client is blocked in `join_all` no further call of `start` or `stop` is
made. After a failed assertion nothing happens any more. -/
def step (c : Consts) (σ : Sys) (e : Ev) : Sys :=
  if σ.aborted then σ
  else
    match e with
    | Ev.start n =>
      if σ.joining then σ
      else
        match start σ.svc n (fun _ => true) with
        | (r, s) =>
          { σ with
            svc := s
            start_ret := some r
            workers :=
              if r = 0 then List.replicate s.m_thread_group.length Worker.fresh else σ.workers }
    | Ev.stop_call =>
      if σ.joining then σ
      else
        match stop_enter c σ.svc the_client with
        | (some r, s) => { σ with svc := s, stop_ret := some r }
        | (none, s) => { σ with svc := s, joining := true, stop_ret := none }
    | Ev.stop_join =>
      if σ.joining && all_done σ.workers then
        if stop_asserts (stop_joined σ.svc) then
          { σ with
            svc := (stop_finish σ.svc).2
            workers := []
            joining := false
            stop_ret := some (stop_finish σ.svc).1 }
        else { σ with svc := stop_joined σ.svc, workers := [], aborted := true }
      else σ
    | Ev.post m exec_local_ => { σ with svc := (post σ.svc the_client m exec_local_).2 }
    | Ev.register_timer t => { σ with svc := register_timer σ.svc the_client t }
    | Ev.register_io_event e => { σ with svc := register_io_event σ.svc the_client e }
    | Ev.remove_fd_from_epoll fd => { σ with svc := remove_fd_from_epoll σ.svc the_client fd }
    | Ev.worker i ready now =>
      match σ.workers[i]? with
      | none => σ
      | some w =>
        match exec_task_step c i ready now w σ.svc with
        | (w1, s, ok) => { σ with svc := s, workers := σ.workers.set i w1, aborted := !ok }

/-- The state after the events of a schedule, in order. -/
def run (c : Consts) (σ : Sys) (sched : List Ev) : Sys := sched.foldl (step c) σ

/-- Callables invoked so far, in order of invocation. -/
def calls : List Trace → List Task
  | [] => []
  | Trace.called m :: tr => m :: calls tr
  | Trace.released _ :: tr => calls tr

/-- Callables drained by the threads and not invoked yet. -/
def pending : List Worker → List Task
  | [] => []
  | w :: ws => w.tasks ++ pending ws


/-! ## Vocabulary of the statements -/

/-- The specification's `clamp(x, lo, hi)`: `x` brought into `[lo, hi]`. -/
def spec_clamp (x lo hi : Nat) : Nat := if x < lo then lo else if hi < x then hi else x

/-- The calls a callable makes into the service when it runs. -/
def Task.body : Task → List Call
  | Task.user _ b => b
  | _ => []

/-- A callable that a client can submit and that makes no call into the service:
a user callable with an empty body, or one of the registrations. -/
def Task.is_plain : Task → Bool
  | Task.user _ [] => true
  | Task.user _ (_ :: _) => false
  | Task.set_stop_signal _ => false
  | _ => true

/-- The callable that `stop` submits. -/
def stop_task : Task := Task.set_stop_signal true

/-- The callable that an event hands to `post`, if any. -/
def Ev.submits : Ev → Option Task
  | Ev.post m _ => some m
  | Ev.register_timer t => some (Task.timer_register t)
  | Ev.register_io_event e => some (Task.io_register e)
  | Ev.remove_fd_from_epoll fd => some (Task.io_remove fd)
  | _ => none

/-- The callables submitted by the client calls of a schedule, in order. -/
def submitted (sched : List Ev) : List Task := sched.filterMap Ev.submits

/-- Events of a run between `start` and the stop request: steps of the workers and
submissions of tasks and timers (callables that make no call into the service). -/
def Ev.before_stop : Ev → Bool
  | Ev.worker _ _ _ => true
  | Ev.post m _ => m.is_plain
  | Ev.register_timer _ => true
  | Ev.register_io_event _ => true
  | Ev.remove_fd_from_epoll _ => true
  | _ => false

/-- Events of a run after the stop request: steps of the workers, and the return of
`join_all`. -/
def Ev.after_stop : Ev → Bool
  | Ev.worker _ _ _ => true
  | Ev.stop_join => true
  | _ => false

/-- Program points after the outer loop of `exec_task`. -/
def Pc.left : Pc → Bool
  | Pc.fin => true
  | Pc.done => true
  | _ => false

/-- Every thread of the group has left the loop
`while (!m_stop_signal || !m_task_queue.empty())`. -/
def all_left (ws : List Worker) : Bool := ws.all fun w => w.pc.left

/-- Program points at which the local batch `tasks` holds nothing that is still
to be invoked. -/
def Pc.idle : Pc → Bool
  | Pc.check => false
  | Pc.adjust => false
  | Pc.zero_test => false
  | Pc.set_min => false
  | Pc.max_test => false
  | Pc.set_max => false
  | Pc.run => false
  | _ => true

/-- Invariant of one run (from `start` to the return of `join_all`) in which the
callables `posted` have been handed to `post` so far; `stopping` tells whether the
stop request is among them. -/
structure Inv (posted : List Task) (stopping : Bool) (σ : Sys) : Prop where
  not_aborted : σ.aborted = false
  joining : σ.joining = stopping
  ret : σ.stop_ret = none
  started : σ.svc.m_started = true
  group : σ.svc.m_thread_group ≠ []
  workers_ne : σ.workers ≠ []
  idle : ∀ w ∈ σ.workers, w.pc.idle = true → w.tasks = []
  left : ∀ w ∈ σ.workers, w.pc = Pc.fin ∨ w.pc = Pc.done → σ.svc.m_stop_signal = true
  perm : (calls σ.svc.trace ++ pending σ.workers ++ σ.svc.m_task_queue.tasks).Perm posted
  plain : ∀ m ∈ pending σ.workers ++ σ.svc.m_task_queue.tasks, m.is_plain = true ∨ m = stop_task
  once : posted.count stop_task ≤ 1
  nostop : stopping = false → stop_task ∉ posted
  signal : σ.svc.m_stop_signal = true → stop_task ∈ calls σ.svc.trace
  last : stopping = true →
    σ.svc.m_task_queue.tasks = [] ∨ ∃ q0, σ.svc.m_task_queue.tasks = q0 ++ [stop_task]
  timers : σ.svc.m_timer_manager.timers ≠ [] → ∃ w ∈ σ.workers, w.pc ≠ Pc.done

/-- The state of a run whose call of `stop` has returned 0. -/
structure Stopped (posted : List Task) (σ : Sys) : Prop where
  not_aborted : σ.aborted = false
  joining : σ.joining = false
  workers : σ.workers = []
  ret : σ.stop_ret = some 0
  started : σ.svc.m_started = false
  thread_num : σ.svc.m_thread_num = 0
  fetch_num : σ.svc.m_fetch_num_per_loop = 0xffffffff
  group : σ.svc.m_thread_group = []
  queue : σ.svc.m_task_queue.tasks = []
  timers : σ.svc.m_timer_manager.timers = []
  perm : (calls σ.svc.trace).Perm posted
  signal : σ.svc.m_stop_signal = true

/-! ## A sample run: two threads, three tasks and a timer -/

/-- Constants of the sample runs. -/
def demo_consts : Consts :=
  { MIN_TASK_FETCH_NUM := 1, MAX_TASK_FETCH_NUM := 1000, EXEC_LOCAL_DEFAULT := true }

/-- Sample run, before the stop request: two tasks are posted, thread 0 drains them,
a timer and a third task are submitted, thread 1 drains those. -/
def demo_pre : List Ev :=
  [Ev.post (Task.user 0 []) false, Ev.post (Task.user 1 []) true] ++
    List.replicate 5 (Ev.worker 0 0 0) ++
    [Ev.register_timer ⟨50, 7, false, 0⟩, Ev.post (Task.user 2 []) false] ++
    List.replicate 5 (Ev.worker 1 0 0)

/-- Sample run, after the stop request: the two threads take turns until both have
returned, then `join_all` returns. -/
def demo_post : List Ev :=
  List.replicate 7 (Ev.worker 0 0 0) ++ List.replicate 5 (Ev.worker 1 0 0) ++
    List.replicate 13 (Ev.worker 0 0 60) ++ List.replicate 4 (Ev.worker 1 0 60) ++
    [Ev.stop_join]

/-! ## A task that posts while another thread leaves the loop -/

/-- A user callable whose body posts one callable with `exec_local_ = false`. -/
def posting_task : Task := Task.user 0 [Call.post 1 false]

/-- A user callable whose body registers a timer. -/
def timer_task : Task := Task.user 0 [Call.register_timer ⟨50, 7, false, 0⟩]

/-- Before the stop request: the client posts `p`, thread 0 enters `exec_task` and
drains `p` (lines 130 to 157). -/
def race_pre (p : Task) : List Ev :=
  Ev.post p false :: List.replicate 5 (Ev.worker 0 0 0)

/-- After the stop request: thread 1 enters `exec_task`, drains and invokes the
stop-signal task and leaves the loop at line 138 (13 steps); thread 0 goes on to the
invocation of `p` (6 steps); thread 1 runs the code after the loop, lines 193-195. -/
def race_post : List Ev :=
  List.replicate 13 (Ev.worker 1 0 0) ++ List.replicate 6 (Ev.worker 0 0 0) ++
    [Ev.worker 1 0 0]

/-! ## One worker thread: order of invocation -/

/-- The fields that only `start`, `stop` and the block computing the fetch number
write are the same in `s1` as in `s`. -/
def same_control (s s1 : task_service_t) : Prop :=
  s1.m_started = s.m_started ∧ s1.m_thread_num = s.m_thread_num ∧
    s1.m_thread_group = s.m_thread_group ∧
    s1.m_fetch_num_per_loop = s.m_fetch_num_per_loop

/-- The fetch number `v` is the default `0xffffffff` or lies between
`min 1 MIN_TASK_FETCH_NUM` and `MAX_TASK_FETCH_NUM`. -/
def fetch_ok (c : Consts) (v : Nat) : Prop :=
  v = 0xffffffff ∨ (min 1 c.MIN_TASK_FETCH_NUM ≤ v ∧ v ≤ c.MAX_TASK_FETCH_NUM)

/-- Thread `w` stands inside the block that computes the fetch number, after the store
of line 173, at a point from which its own next steps replace the value `v` now in
the field. -/
def will_fix (c : Consts) (w : Worker) (v : Nat) : Prop :=
  (w.pc = Pc.zero_test ∧ (v = 0 ∨ c.MAX_TASK_FETCH_NUM < v)) ∨
    w.pc = Pc.set_min ∨
    (w.pc = Pc.max_test ∧ c.MAX_TASK_FETCH_NUM < v) ∨
    w.pc = Pc.set_max

/-- Invariant of every reachable state, for the fetch number: it is the default
`0xffffffff` or a value in range, unless a thread inside the block that computes it
is about to replace it; it is the default when `m_thread_num <= 1`; a thread inside
the loop knows the size of the group, which is `m_thread_num`; and a service that is
not started has no thread. -/
structure FetchInv (c : Consts) (σ : Sys) : Prop where
  range : fetch_ok c σ.svc.m_fetch_num_per_loop ∨
    ∃ w ∈ σ.workers, will_fix c w σ.svc.m_fetch_num_per_loop
  single : σ.svc.m_thread_num ≤ 1 → σ.svc.m_fetch_num_per_loop = 0xffffffff
  locals : ∀ w ∈ σ.workers, w.pc ≠ Pc.entry → w.pc ≠ Pc.done →
    w.thread_num = σ.svc.m_thread_group.length ∧ w.thread_num ≠ 0
  inside : ∀ w ∈ σ.workers, w.pc.mid_adjust = true → w.thread_num ≠ 1
  group : σ.svc.m_thread_group.length = σ.svc.m_thread_num.toNat
  idle : σ.svc.m_started = false →
    σ.svc.m_fetch_num_per_loop = 0xffffffff ∧ σ.workers = [] ∧ σ.svc.m_thread_group = []

/-! ## Sample runs: a first run, and a second run of the same service -/

/-- A first run with one thread: `start(1)`, `stop()`, the thread runs until it has
returned, `join_all` returns. -/
def first_run : List Ev :=
  [Ev.start 1, Ev.stop_call] ++ List.replicate 13 (Ev.worker 0 0 0) ++ [Ev.stop_join]

/-- A second `start(1)` on the same service, and three steps of the new thread. -/
def second_start : List Ev := Ev.start 1 :: List.replicate 3 (Ev.worker 0 0 0)

/-- In the second run a task is posted and `stop()` is called. -/
def second_stop : List Ev := [Ev.post (Task.user 0 []) false, Ev.stop_call, Ev.stop_join]

/-! ## A callable that posts from inside the worker thread -/

/-- State `σ` with thread `i` in control state `w` and the service in state `s`. -/
def upd (σ : Sys) (i : Nat) (w : Worker) (s : task_service_t) : Sys :=
  { σ with svc := s, workers := σ.workers.set i w }

/-- Thread `i` runs alone for `n` steps; nothing becomes ready, the clock stands. -/
def solo (i n : Nat) : List Ev := List.replicate n (Ev.worker i 0 0)

/-- The service after thread `i` has invoked and released the callables `ts` in order. -/
def exec_batch (i : Nat) (ts : List Task) (s : task_service_t) : task_service_t :=
  ts.foldl (fun s m => released m (invoke (thread_id.worker i) m (called m s))) s

/-- The stop request has been posted behind the tasks `ts` and no thread has taken a
step yet. -/
structure Ready (K : Nat) (ts : List Task) (σ : Sys) : Prop where
  not_aborted : σ.aborted = false
  joining : σ.joining = true
  workers : σ.workers = List.replicate K Worker.fresh
  signal : σ.svc.m_stop_signal = false
  fetch_num : σ.svc.m_fetch_num_per_loop = 0xffffffff
  queue : σ.svc.m_task_queue.tasks = ts ++ [stop_task]
  group : σ.svc.m_thread_group ≠ []

/-- The threads numbered below `j` have returned from `exec_task`, the others have not
taken a step; the stop signal is set, the queue and the timer manager are empty. -/
structure Leaving (K j : Nat) (σ : Sys) : Prop where
  not_aborted : σ.aborted = false
  joining : σ.joining = true
  length : σ.workers.length = K
  finished : ∀ i, i < j → ∃ w, σ.workers[i]? = some w ∧ w.pc = Pc.done
  fresh : ∀ i, j ≤ i → i < K → σ.workers[i]? = some Worker.fresh
  signal : σ.svc.m_stop_signal = true
  queue : σ.svc.m_task_queue.tasks = []
  timers : σ.svc.m_timer_manager.timers = []
  group : σ.svc.m_thread_group ≠ []

/-! ## Basic facts -/

theorem calls_append (a b : List Trace) : calls (a ++ b) = calls a ++ calls b := by
  induction a with
  | nil => rfl
  | cons x a ih => cases x <;> simp [calls, ih]

theorem pending_append (a b : List Worker) : pending (a ++ b) = pending a ++ pending b := by
  induction a with
  | nil => rfl
  | cons w a ih => simp [pending, ih]

theorem invoke_of_body_nil (self : thread_id) (m : Task) (s : task_service_t)
    (h : m.body = []) : invoke self m s = invoke_plain m s := by
  cases m <;> simp_all [invoke, invoke_plain, Task.body]

theorem invoke_plain_queue (m : Task) (s : task_service_t) :
    (invoke_plain m s).m_task_queue = s.m_task_queue := by
  cases m <;> rfl

theorem invoke_plain_trace (m : Task) (s : task_service_t) :
    (invoke_plain m s).trace = s.trace := by
  cases m <;> rfl

theorem post_plain_calls (s : task_service_t) (self : thread_id) (m : Task) (b : Bool) :
    ∃ l, calls (post_plain s self m b).2.trace = calls s.trace ++ l ∧ (l = [] ∨ l = [m]) := by
  unfold post_plain
  split
  · exact ⟨[m], by simp [released, called, invoke_plain_trace, calls_append, calls], Or.inr rfl⟩
  · exact ⟨[], by simp, Or.inl rfl⟩

theorem do_call_calls (self : thread_id) (s : task_service_t) (k : Call) :
    ∃ l, calls (do_call self s k).trace = calls s.trace ++ l ∧ ∀ x ∈ l, x.body = [] := by
  cases k with
  | post id b =>
    obtain ⟨l, h1, h2⟩ := post_plain_calls s self (Task.user id []) b
    refine ⟨l, h1, ?_⟩
    rcases h2 with rfl | rfl <;> simp [Task.body]
  | register_timer t =>
    obtain ⟨l, h1, h2⟩ := post_plain_calls s self (Task.timer_register t)
      (if s.m_thread_num > (1 : Int) then false else true)
    refine ⟨l, h1, ?_⟩
    rcases h2 with rfl | rfl <;> simp [Task.body]
  | register_io_event e =>
    obtain ⟨l, h1, h2⟩ := post_plain_calls s self (Task.io_register e)
      (if s.m_thread_num > (1 : Int) then false else true)
    refine ⟨l, h1, ?_⟩
    rcases h2 with rfl | rfl <;> simp [Task.body]
  | remove_fd_from_epoll fd =>
    obtain ⟨l, h1, h2⟩ := post_plain_calls s self (Task.io_remove fd)
      (if s.m_thread_num > (1 : Int) then false else true)
    refine ⟨l, h1, ?_⟩
    rcases h2 with rfl | rfl <;> simp [Task.body]

theorem body_calls (self : thread_id) (body : List Call) (s : task_service_t) :
    ∃ l, calls (body.foldl (do_call self) s).trace = calls s.trace ++ l ∧
      ∀ x ∈ l, x.body = [] := by
  induction body generalizing s with
  | nil => exact ⟨[], by simp, by simp⟩
  | cons k body ih =>
    obtain ⟨l1, h1, h2⟩ := do_call_calls self s k
    obtain ⟨l2, h3, h4⟩ := ih (do_call self s k)
    refine ⟨l1 ++ l2, ?_, ?_⟩
    · simp [List.foldl_cons, h3, h1]
    · intro x hx
      rcases List.mem_append.1 hx with h | h
      · exact h2 x h
      · exact h4 x h

theorem invoke_calls_count (self : thread_id) (m : Task) (s : task_service_t) :
    (calls (invoke self m s).trace).count m = (calls s.trace).count m := by
  by_cases hb : m.body = []
  · rw [invoke_of_body_nil self m s hb, invoke_plain_trace]
  · cases m with
    | user id body =>
      obtain ⟨l, h1, h2⟩ := body_calls self body s
      simp only [invoke, h1, List.count_append]
      have : l.count (Task.user id body) = 0 := by
        apply List.count_eq_zero.2
        intro hmem
        exact hb (h2 _ hmem)
      omega
    | _ => simp [Task.body] at hb

/-! ## The block that computes `m_fetch_num_per_loop` (C4) -/

theorem exec_adjust_block_eq (c : Consts) (self : Nat) (w : Worker) (s : task_service_t)
    (hpc : w.pc = Pc.adjust) :
    exec_adjust_block c self 5 w s =
      ({ w with pc := Pc.run },
        { s with m_fetch_num_per_loop :=
            calc_fetch_num c w.all_task_num w.thread_num s.m_fetch_num_per_loop }) := by
  by_cases h1 : w.thread_num = 1
  · simp [exec_adjust_block, exec_task_step, Pc.in_adjust, hpc, calc_fetch_num, h1]
  · by_cases hq : w.all_task_num / w.thread_num = 0
    · by_cases hm : c.MIN_TASK_FETCH_NUM > c.MAX_TASK_FETCH_NUM
      · simp [exec_adjust_block, exec_task_step, Pc.in_adjust, hpc, calc_fetch_num, h1, hq, hm]
      · simp [exec_adjust_block, exec_task_step, Pc.in_adjust, hpc, calc_fetch_num, h1, hq, hm]
    · by_cases hm : w.all_task_num / w.thread_num > c.MAX_TASK_FETCH_NUM
      · simp [exec_adjust_block, exec_task_step, Pc.in_adjust, hpc, calc_fetch_num, h1, hq, hm]
      · simp [exec_adjust_block, exec_task_step, Pc.in_adjust, hpc, calc_fetch_num, h1, hq, hm]

/-- C4, counterexample: with `MIN_TASK_FETCH_NUM = 10 <= MAX_TASK_FETCH_NUM = 100`, a
drain that reports `T = 6` tasks with `K = 2` threads leaves 3 in
`m_fetch_num_per_loop`, whereas `clamp(6 / 2, 10, 100)` is 10. -/
theorem fetch_num_not_clamped :
    (10 : Nat) ≤ 100 ∧ 1 < (2 : Nat) ∧ (6 : Nat) < 2 ^ 32 ∧
    (exec_adjust_block ⟨10, 100, true⟩ 0 5
        { pc := Pc.adjust, tasks := [], all_task_num := 6, thread_num := 2, wake_num := 0 }
        (ctor "svc")).1.pc = Pc.run ∧
    (exec_adjust_block ⟨10, 100, true⟩ 0 5
        { pc := Pc.adjust, tasks := [], all_task_num := 6, thread_num := 2, wake_num := 0 }
        (ctor "svc")).2.m_fetch_num_per_loop = 3 ∧
    spec_clamp (6 / 2) 10 100 = 10 ∧
    (exec_adjust_block ⟨10, 100, true⟩ 0 5
        { pc := Pc.adjust, tasks := [], all_task_num := 6, thread_num := 2, wake_num := 0 }
        (ctor "svc")).2.m_fetch_num_per_loop ≠ spec_clamp (6 / 2) 10 100 := by
  decide

/-- C4, amended: for constants with `MIN_TASK_FETCH_NUM <= MAX_TASK_FETCH_NUM`, a thread
that runs the block of `exec_task` following a drain (lines 171-183) to its end, no
other thread writing the field meanwhile, after a drain reporting
`T = all_task_num` tasks with `K = thread_num > 1` threads, leaves in
`m_fetch_num_per_loop` the value `MIN_TASK_FETCH_NUM` when `T / K = 0` and
`min (T / K) MAX_TASK_FETCH_NUM` otherwise; this is `clamp(T / K, MIN, MAX)` whenever
`T / K = 0` or `MIN <= T / K`. With `K = 1` the value is left unchanged. In every case
the thread reaches the loop over the drained callables within five steps. -/
theorem fetch_num_after_drain (c : Consts) (self : Nat) (w : Worker)
    (s : task_service_t) (hpc : w.pc = Pc.adjust)
    (hc : c.MIN_TASK_FETCH_NUM ≤ c.MAX_TASK_FETCH_NUM) :
    (exec_adjust_block c self 5 w s).1.pc = Pc.run ∧
    (1 < w.thread_num →
      (exec_adjust_block c self 5 w s).2.m_fetch_num_per_loop =
        (if w.all_task_num / w.thread_num = 0 then c.MIN_TASK_FETCH_NUM
         else min (w.all_task_num / w.thread_num) c.MAX_TASK_FETCH_NUM)) ∧
    (1 < w.thread_num →
      (w.all_task_num / w.thread_num = 0 ∨
        c.MIN_TASK_FETCH_NUM ≤ w.all_task_num / w.thread_num) →
      (exec_adjust_block c self 5 w s).2.m_fetch_num_per_loop =
        spec_clamp (w.all_task_num / w.thread_num) c.MIN_TASK_FETCH_NUM
          c.MAX_TASK_FETCH_NUM) ∧
    (w.thread_num = 1 →
      (exec_adjust_block c self 5 w s).2.m_fetch_num_per_loop =
        s.m_fetch_num_per_loop) := by
  rw [exec_adjust_block_eq c self w s hpc]
  simp only [calc_fetch_num, spec_clamp]
  refine ⟨trivial, ?_, ?_, ?_⟩
  · intro hK
    have : w.thread_num ≠ 1 := by omega
    simp only [this, ne_eq, not_false_eq_true, if_true]
    generalize w.all_task_num / w.thread_num = q
    split_ifs <;> omega
  · intro hK hq
    have : w.thread_num ≠ 1 := by omega
    simp only [this, ne_eq, not_false_eq_true, if_true]
    generalize w.all_task_num / w.thread_num = q at hq ⊢
    split_ifs <;> omega
  · intro hK
    simp [hK]

/-- C4, amended, at `T = 1000`, `K = 4`, `MIN = 10`, `MAX = 100`: the value left is 100. -/
theorem fetch_num_after_drain_witness :
    (exec_adjust_block ⟨10, 100, true⟩ 0 5
        { pc := Pc.adjust, tasks := [], all_task_num := 1000, thread_num := 4, wake_num := 0 }
        (ctor "svc")).2.m_fetch_num_per_loop =
      spec_clamp (1000 / 4) 10 100 :=
  (fetch_num_after_drain ⟨10, 100, true⟩ 0
    { pc := Pc.adjust, tasks := [], all_task_num := 1000, thread_num := 4, wake_num := 0 }
    (ctor "svc") rfl (by decide)).2.2.1 (by decide) (Or.inr (by decide))

/-! ## `post` (C5) -/

/-- C5: `post` returns 0 for every input. When `exec_local_` is true and the calling
thread belongs to the thread group, the state it leaves is the one left by invoking
the callable once and releasing it, nothing else: the number of invocations of the
callable grows by exactly one and, for a callable that makes no call into the
service, the trace grows by "called, released" and the task queue is unchanged. In
every other case the state is the previous one with the callable appended at the tail
of the task queue, and nothing is invoked. -/
theorem post_inline_or_enqueue (s : task_service_t) (self : thread_id) (m : Task)
    (exec_local_ : Bool) :
    (post s self m exec_local_).1 = 0 ∧
    ((exec_local_ = true ∧ is_run_on_service s self = true) →
      (post s self m exec_local_).2 = released m (invoke self m (called m s)) ∧
      (calls (post s self m exec_local_).2.trace).count m = (calls s.trace).count m + 1 ∧
      (m.body = [] →
        (post s self m exec_local_).2.trace = s.trace ++ [Trace.called m, Trace.released m] ∧
        (post s self m exec_local_).2.m_task_queue = s.m_task_queue)) ∧
    (¬ (exec_local_ = true ∧ is_run_on_service s self = true) →
      (post s self m exec_local_).2 =
        { s with m_task_queue := { s.m_task_queue with tasks := s.m_task_queue.tasks ++ [m] } } ∧
      (post s self m exec_local_).2.trace = s.trace) := by
  refine ⟨?_, ?_, ?_⟩
  · unfold post; split <;> rfl
  · rintro ⟨h1, h2⟩
    have hp : (post s self m exec_local_).2 = released m (invoke self m (called m s)) := by
      simp [post, h1, h2]
    refine ⟨hp, ?_, ?_⟩
    · rw [hp]
      simp only [released, calls_append, calls, List.append_nil, invoke_calls_count]
      simp [called, calls_append, calls]
    · intro hb
      rw [hp, invoke_of_body_nil self m _ hb]
      simp [released, called, invoke_plain_trace, invoke_plain_queue]
  · intro h
    have : (exec_local_ && is_run_on_service s self) = false := by
      cases exec_local_ <;> cases hr : is_run_on_service s self <;> simp_all
    simp [post, this, task_queue_t.push]

/-- C5 on a service started with one thread: posted by worker 0 with `exec_local_`,
a callable leaves the queue empty and is invoked; posted by a client thread it is
enqueued. -/
theorem post_inline_or_enqueue_witness :
    (post (start (ctor "svc") 1 fun _ => true).2 (thread_id.worker 0)
        (Task.user 7 []) true).2.m_task_queue.tasks = [] ∧
    (post (start (ctor "svc") 1 fun _ => true).2 (thread_id.client 0)
        (Task.user 7 []) true).2.m_task_queue.tasks = [Task.user 7 []] := by
  have h1 := (post_inline_or_enqueue (start (ctor "svc") 1 fun _ => true).2 (thread_id.worker 0)
    (Task.user 7 []) true).2.1 ⟨rfl, by decide⟩
  have h2 := (post_inline_or_enqueue (start (ctor "svc") 1 fun _ => true).2 (thread_id.client 0)
    (Task.user 7 []) true).2.2 (by decide)
  constructor
  · rw [(h1.2.2 rfl).2]; decide
  · rw [h2.1]; decide

/-! ## Registration (C6) -/

/-- C6: `register_timer`, `register_io_event` and `remove_fd_from_epoll` each call `post`
with `exec_local_` true exactly when `m_thread_num <= 1`. Called by a thread of the
group with `m_thread_num = 1`, the registration is applied to the timer manager or
the I/O handler when the call returns and the task queue is unchanged. With
`m_thread_num > 1` the service is unchanged except that one callable performing the
registration is appended to the task queue. -/
theorem registration_delegates_to_post (s : task_service_t) (self : thread_id) (t : Timer)
    (e : IoEvent) (fd : Nat) :
    (register_timer s self t =
        (post s self (Task.timer_register t) (decide (s.m_thread_num ≤ 1))).2 ∧
      register_io_event s self e =
        (post s self (Task.io_register e) (decide (s.m_thread_num ≤ 1))).2 ∧
      remove_fd_from_epoll s self fd =
        (post s self (Task.io_remove fd) (decide (s.m_thread_num ≤ 1))).2) ∧
    (is_run_on_service s self = true → s.m_thread_num = 1 →
      ((register_timer s self t).m_timer_manager = s.m_timer_manager.register_timer t ∧
        (register_timer s self t).m_io_handler = s.m_io_handler ∧
        (register_timer s self t).m_task_queue = s.m_task_queue) ∧
      ((register_io_event s self e).m_io_handler = s.m_io_handler.register_io_event e ∧
        (register_io_event s self e).m_timer_manager = s.m_timer_manager ∧
        (register_io_event s self e).m_task_queue = s.m_task_queue) ∧
      ((remove_fd_from_epoll s self fd).m_io_handler = s.m_io_handler.remove_fd_from_epoll fd ∧
        (remove_fd_from_epoll s self fd).m_timer_manager = s.m_timer_manager ∧
        (remove_fd_from_epoll s self fd).m_task_queue = s.m_task_queue)) ∧
    (1 < s.m_thread_num →
      register_timer s self t =
        { s with m_task_queue :=
            { s.m_task_queue with tasks := s.m_task_queue.tasks ++ [Task.timer_register t] } } ∧
      register_io_event s self e =
        { s with m_task_queue :=
            { s.m_task_queue with tasks := s.m_task_queue.tasks ++ [Task.io_register e] } } ∧
      remove_fd_from_epoll s self fd =
        { s with m_task_queue :=
            { s.m_task_queue with tasks := s.m_task_queue.tasks ++ [Task.io_remove fd] } }) := by
  refine ⟨⟨?_, ?_, ?_⟩, ?_, ?_⟩
  · by_cases h : s.m_thread_num ≤ 1
    · have h2 : ¬ s.m_thread_num > 1 := by omega
      simp [register_timer, h, h2]
    · have h2 : s.m_thread_num > 1 := by omega
      simp [register_timer, h, h2]
  · by_cases h : s.m_thread_num ≤ 1
    · have h2 : ¬ s.m_thread_num > 1 := by omega
      simp [register_io_event, h, h2]
    · have h2 : s.m_thread_num > 1 := by omega
      simp [register_io_event, h, h2]
  · by_cases h : s.m_thread_num ≤ 1
    · have h2 : ¬ s.m_thread_num > 1 := by omega
      simp [remove_fd_from_epoll, h, h2]
    · have h2 : s.m_thread_num > 1 := by omega
      simp [remove_fd_from_epoll, h, h2]
  · intro hr h1
    simp [register_timer, register_io_event, remove_fd_from_epoll, post, h1, hr, released,
      invoke, invoke_plain, called]
  · intro h1
    simp [register_timer, register_io_event, remove_fd_from_epoll, post, h1, task_queue_t.push]

/-- C6 on services started with 1 and with 4 threads: worker 0 registers a timer; with
one thread the timer is in the timer manager, with four it is a task in the queue. -/
theorem registration_delegates_to_post_witness :
    is_run_on_service ((start (ctor "svc") 1 fun _ => true).2) (thread_id.worker 0) = true ∧
    (start (ctor "svc") 1 fun _ => true).2.m_thread_num = 1 ∧
    (register_timer (start (ctor "svc") 1 fun _ => true).2 (thread_id.worker 0)
        ⟨50, 7, false, 0⟩).m_timer_manager.timers = [⟨50, 7, false, 0⟩] ∧
    (1 : Int) < (start (ctor "svc") 4 fun _ => true).2.m_thread_num ∧
    (register_timer (start (ctor "svc") 4 fun _ => true).2 (thread_id.worker 0)
        ⟨50, 7, false, 0⟩).m_task_queue.tasks = [Task.timer_register ⟨50, 7, false, 0⟩] := by
  have h := registration_delegates_to_post (start (ctor "svc") 1 fun _ => true).2
    (thread_id.worker 0) ⟨50, 7, false, 0⟩ ⟨3, 1, 9, 0, true⟩ 3
  have h4 := registration_delegates_to_post (start (ctor "svc") 4 fun _ => true).2
    (thread_id.worker 0) ⟨50, 7, false, 0⟩ ⟨3, 1, 9, 0, true⟩ 3
  refine ⟨by decide, by decide, ?_, by decide, ?_⟩
  · rw [(h.2.1 (by decide) (by decide)).1.1]; decide
  · rw [(h4.2.2 (by decide)).1]; decide

/-! ## Misuse of `start` and `stop` (C7) -/

/-- C7: on a started service `start` returns -1 for every argument and leaves the
service record as it was; on a service that is not started `stop` returns -1 before
it posts anything and leaves the service record as it was. In the system of service
and threads, such a call changes nothing but the recorded status: the threads are
as they were. -/
theorem misuse_rejected (c : Consts) (s : task_service_t) (σ : Sys)
    (ha : σ.aborted = false) (hj : σ.joining = false) :
    (s.m_started = true →
      ∀ (thread_num_ : Int) (new_ok : Nat → Bool), start s thread_num_ new_ok = (-1, s)) ∧
    (s.m_started = false →
      ∀ self : thread_id, stop_enter c s self = (some (-1), s)) ∧
    (σ.svc.m_started = true →
      ∀ thread_num_ : Int, step c σ (Ev.start thread_num_) = { σ with start_ret := some (-1) }) ∧
    (σ.svc.m_started = false →
      step c σ Ev.stop_call = { σ with stop_ret := some (-1) }) := by
  refine ⟨?_, ?_, ?_, ?_⟩
  · intro h n f; simp [start, h]
  · intro h self; simp [stop_enter, h]
  · intro h n; simp [step, ha, hj, start, h]
  · intro h; simp [step, ha, hj, stop_enter, h]

/-- C7 at a service started with 4 threads (a second `start 2` is rejected) and at a
freshly constructed one (`stop` is rejected). -/
theorem misuse_rejected_witness :
    start (start (ctor "svc") 4 fun _ => true).2 2 (fun _ => true) =
      (-1, (start (ctor "svc") 4 fun _ => true).2) ∧
    stop_enter ⟨1, 1000, true⟩ (ctor "svc") (thread_id.client 0) = (some (-1), ctor "svc") :=
  ⟨(misuse_rejected ⟨1, 1000, true⟩ (start (ctor "svc") 4 fun _ => true).2 (Sys.init "svc")
      rfl rfl).1 (by decide) 2 (fun _ => true),
   (misuse_rejected ⟨1, 1000, true⟩ (ctor "svc") (Sys.init "svc") rfl rfl).2.1 rfl
      (thread_id.client 0)⟩

/-! ## `start` with a thread count that is not positive (C10) -/

/-- C10: on a service that is not started (empty thread group, empty queue, stop signal
clear), `start` with a thread count `<= 0` returns 0, sets `m_started` and adds no
thread to the group. The following `stop` does not return early; it appends the
stop-signal task; `join_all` has no thread to wait for; and where `stop` evaluates
its assertions the task queue holds exactly that one task and `m_stop_signal` is
still false, so the assertion on the queue fails. The second part says the same of
the system started from a constructed service. -/
theorem start_nonpositive_then_stop (c : Consts) (s : task_service_t) (thread_num_ : Int)
    (new_ok : Nat → Bool) (self : thread_id) (service_name_ : String)
    (hn : thread_num_ ≤ 0) (hs : s.m_started = false) (hg : s.m_thread_group = [])
    (hq : s.m_task_queue.tasks = []) (hsig : s.m_stop_signal = false) :
    ((start s thread_num_ new_ok).1 = 0 ∧
      (start s thread_num_ new_ok).2.m_started = true ∧
      (start s thread_num_ new_ok).2.m_thread_group = [] ∧
      (stop_enter c (start s thread_num_ new_ok).2 self).1 = none ∧
      (stop_joined (stop_enter c (start s thread_num_ new_ok).2 self).2).m_task_queue.tasks =
        [Task.set_stop_signal true] ∧
      (stop_joined (stop_enter c (start s thread_num_ new_ok).2 self).2).m_stop_signal = false ∧
      stop_asserts (stop_joined (stop_enter c (start s thread_num_ new_ok).2 self).2) = false) ∧
    ((run c (Sys.init service_name_) [Ev.start thread_num_]).start_ret = some 0 ∧
      (run c (Sys.init service_name_) [Ev.start thread_num_]).workers = [] ∧
      (run c (Sys.init service_name_) [Ev.start thread_num_, Ev.stop_call]).joining = true ∧
      all_done (run c (Sys.init service_name_) [Ev.start thread_num_, Ev.stop_call]).workers
        = true ∧
      (run c (Sys.init service_name_)
        [Ev.start thread_num_, Ev.stop_call]).svc.m_task_queue.tasks =
          [Task.set_stop_signal true] ∧
      (run c (Sys.init service_name_)
        [Ev.start thread_num_, Ev.stop_call, Ev.stop_join]).aborted = true) := by
  have h0 : thread_num_.toNat = 0 := Int.toNat_eq_zero.2 hn
  have hst : start s thread_num_ new_ok =
      (0, { s with
            m_thread_num := thread_num_
            m_task_queue := s.m_task_queue.initialise true
            m_timer_manager := s.m_timer_manager.initialise false
            m_io_handler := s.m_io_handler.initialise false
            m_started := true }) := by
    have h1 : thread_num_ ≤ 1 := by omega
    simp [start, hs, h0, start_add, hg, h1]
  have hst0 : start (ctor service_name_) thread_num_ (fun _ => true) =
      (0, { ctor service_name_ with
            m_thread_num := thread_num_
            m_task_queue := (ctor service_name_).m_task_queue.initialise true
            m_timer_manager := (ctor service_name_).m_timer_manager.initialise false
            m_io_handler := (ctor service_name_).m_io_handler.initialise false
            m_started := true }) := by
    have h1 : thread_num_ ≤ 1 := by omega
    simp [start, h0, start_add, h1, ctor]
  constructor
  · rw [hst]
    simp [stop_enter, post_async_stop_signal, post, is_run_on_service, hg, stop_joined,
      stop_asserts, task_queue_t.push, task_queue_t.initialise, hq, hsig, task_queue_t.size]
    cases self <;> simp [thread_group_check_is_self]
  · simp only [run, List.foldl_cons, List.foldl_nil, step, Sys.init, hst0]
    simp [all_done, stop_enter, post_async_stop_signal, post,
      is_run_on_service, the_client, thread_group_check_is_self, stop_joined, stop_asserts,
      task_queue_t.push, task_queue_t.initialise, task_queue_t.size, ctor]

/-- C10 at `start(0)` and at `start(-3)` on a freshly constructed service. -/
theorem start_nonpositive_then_stop_witness :
    (start (ctor "svc") 0 fun _ => true).1 = 0 ∧
    (stop_joined (stop_enter ⟨1, 1000, true⟩ (start (ctor "svc") 0 fun _ => true).2
        (thread_id.client 0)).2).m_task_queue.tasks = [Task.set_stop_signal true] ∧
    (run ⟨1, 1000, true⟩ (Sys.init "svc") [Ev.start (-3), Ev.stop_call, Ev.stop_join]).aborted
      = true :=
  ⟨(start_nonpositive_then_stop ⟨1, 1000, true⟩ (ctor "svc") 0 (fun _ => true)
      (thread_id.client 0) "svc" (by decide) rfl rfl rfl rfl).1.1,
   (start_nonpositive_then_stop ⟨1, 1000, true⟩ (ctor "svc") 0 (fun _ => true)
      (thread_id.client 0) "svc" (by decide) rfl rfl rfl rfl).1.2.2.2.2.1,
   (start_nonpositive_then_stop ⟨1, 1000, true⟩ (ctor "svc") (-3) (fun _ => true)
      (thread_id.client 0) "svc" (by decide) rfl rfl rfl rfl).2.2.2.2.2.2⟩

/-! ## One run of the service: the invariant -/

theorem getElem?_split {α : Type} (l : List α) (i : Nat) (w w1 : α) (h : l[i]? = some w) :
    ∃ l1 l2, l = l1 ++ w :: l2 ∧ l.set i w1 = l1 ++ w1 :: l2 := by
  induction l generalizing i with
  | nil => simp at h
  | cons x l ih =>
    cases i with
    | zero =>
      simp at h
      exact ⟨[], l, by simp [h], by simp⟩
    | succ i =>
      simp at h
      obtain ⟨l1, l2, h1, h2⟩ := ih i h
      exact ⟨x :: l1, l2, by simp [h1], by simp [h2]⟩

theorem post_client (s : task_service_t) (k : Nat) (m : Task) (b : Bool) :
    post s (thread_id.client k) m b = (0, { s with m_task_queue := s.m_task_queue.push m }) := by
  simp [post, is_run_on_service, thread_group_check_is_self]

theorem step_submit (c : Consts) (σ : Sys) (e : Ev) (m : Task) (ha : σ.aborted = false)
    (h : e.submits = some m) :
    step c σ e = { σ with svc := { σ.svc with m_task_queue := σ.svc.m_task_queue.push m } } := by
  cases e <;> simp [Ev.submits] at h <;> subst h <;>
    simp [step, ha, register_timer, register_io_event, remove_fd_from_epoll, the_client,
      post_client]

theorem Inv.worker {posted : List Task} {stopping : Bool} {σ : Sys} (hI : Inv posted stopping σ)
    {l1 l2 : List Worker} {w w1 : Worker} {s1 : task_service_t}
    (hw : σ.workers = l1 ++ w :: l2)
    (h_started : s1.m_started = true)
    (h_group : s1.m_thread_group ≠ [])
    (h_idle : w1.pc.idle = true → w1.tasks = [])
    (h_left : w1.pc = Pc.fin ∨ w1.pc = Pc.done → s1.m_stop_signal = true)
    (h_mono : σ.svc.m_stop_signal = true → s1.m_stop_signal = true)
    (h_count : ∀ a, (calls s1.trace).count a + w1.tasks.count a + s1.m_task_queue.tasks.count a
      = (calls σ.svc.trace).count a + w.tasks.count a + σ.svc.m_task_queue.tasks.count a)
    (h_signal : s1.m_stop_signal = true → stop_task ∈ calls s1.trace)
    (h_last : stopping = true →
      s1.m_task_queue.tasks = [] ∨ ∃ q0, s1.m_task_queue.tasks = q0 ++ [stop_task])
    (h_timers : s1.m_timer_manager.timers ≠ [] → w1.pc ≠ Pc.done)
    (h_sub : ∀ m, m ∈ w1.tasks ∨ m ∈ s1.m_task_queue.tasks →
      m ∈ w.tasks ∨ m ∈ σ.svc.m_task_queue.tasks) :
    Inv posted stopping { σ with svc := s1, workers := l1 ++ w1 :: l2, aborted := false } where
  not_aborted := rfl
  joining := hI.joining
  ret := hI.ret
  started := h_started
  group := h_group
  workers_ne := by simp
  idle := by
    intro x hx hi
    simp only [List.mem_append, List.mem_cons] at hx
    rcases hx with hx | rfl | hx
    · exact hI.idle x (by simp [hw, hx]) hi
    · exact h_idle hi
    · exact hI.idle x (by simp [hw, hx]) hi
  left := by
    intro x hx hl
    simp only [List.mem_append, List.mem_cons] at hx
    rcases hx with hx | rfl | hx
    · exact h_mono (hI.left x (by simp [hw, hx]) hl)
    · exact h_left hl
    · exact h_mono (hI.left x (by simp [hw, hx]) hl)
  perm := by
    refine List.Perm.trans ?_ hI.perm
    rw [List.perm_iff_count]
    intro a
    have := h_count a
    simp only [hw, pending_append, pending, List.count_append]
    omega
  plain := by
    intro m hm
    apply hI.plain m
    simp only [hw, pending_append, pending, List.mem_append] at hm ⊢
    rcases hm with (hm | hm | hm) | hm
    · exact Or.inl (Or.inl hm)
    · rcases h_sub m (Or.inl hm) with h | h
      · exact Or.inl (Or.inr (Or.inl h))
      · exact Or.inr h
    · exact Or.inl (Or.inr (Or.inr hm))
    · rcases h_sub m (Or.inr hm) with h | h
      · exact Or.inl (Or.inr (Or.inl h))
      · exact Or.inr h
  once := hI.once
  nostop := hI.nostop
  signal := h_signal
  last := h_last
  timers := by
    intro ht
    exact ⟨w1, by simp, h_timers ht⟩

theorem mem_pending {ws : List Worker} {w : Worker} {m : Task} (hw : w ∈ ws) (hm : m ∈ w.tasks) :
    m ∈ pending ws := by
  induction ws with
  | nil => simp at hw
  | cons x ws ih =>
    simp only [pending, List.mem_append]
    rcases List.mem_cons.1 hw with rfl | h
    · exact Or.inl hm
    · exact Or.inr (ih h)

theorem Inv.plain_of_pending {posted : List Task} {stopping : Bool} {σ : Sys}
    (hI : Inv posted stopping σ) {w : Worker} {m : Task} (hw : w ∈ σ.workers)
    (hm : m ∈ w.tasks) : m.is_plain = true ∨ m = stop_task :=
  hI.plain m (by simp [mem_pending hw hm])

theorem Inv.stopping_of_signal {posted : List Task} {stopping : Bool} {σ : Sys}
    (hI : Inv posted stopping σ) (hs : σ.svc.m_stop_signal = true) : stopping = true := by
  cases hst : stopping with
  | true => rfl
  | false =>
    exfalso
    exact hI.nostop hst (hI.perm.subset (by simp [hI.signal hs]))

theorem Inv.queue_nil {posted : List Task} {stopping : Bool} {σ : Sys}
    (hI : Inv posted stopping σ) (hs : σ.svc.m_stop_signal = true) :
    σ.svc.m_task_queue.tasks = [] := by
  rcases hI.last (hI.stopping_of_signal hs) with h | ⟨q0, h⟩
  · exact h
  · exfalso
    have h1 := hI.perm.count_eq stop_task
    have h2 := hI.once
    have h3 : 0 < (calls σ.svc.trace).count stop_task := List.count_pos_iff.2 (hI.signal hs)
    simp only [List.count_append, h, List.count_singleton_self] at h1
    omega

theorem is_plain_body {m : Task} (h : m.is_plain = true) : m.body = [] := by
  cases m with
  | user id b => cases b <;> simp_all [Task.is_plain, Task.body]
  | _ => rfl

theorem invoke_plain_signal {m : Task} (h : m.is_plain = true) (s : task_service_t) :
    (invoke_plain m s).m_stop_signal = s.m_stop_signal := by
  cases m <;> simp_all [Task.is_plain, invoke_plain]

theorem invoke_plain_started (m : Task) (s : task_service_t) :
    (invoke_plain m s).m_started = s.m_started := by
  cases m <;> rfl

theorem invoke_plain_group (m : Task) (s : task_service_t) :
    (invoke_plain m s).m_thread_group = s.m_thread_group := by
  cases m <;> rfl

theorem step_worker_eq (c : Consts) (σ : Sys) (i ready now : Nat) (w : Worker)
    (ha : σ.aborted = false) (h : σ.workers[i]? = some w) :
    step c σ (Ev.worker i ready now) =
      { σ with
        svc := (exec_task_step c i ready now w σ.svc).2.1
        workers := σ.workers.set i (exec_task_step c i ready now w σ.svc).1
        aborted := !(exec_task_step c i ready now w σ.svc).2.2 } := by
  simp [step, ha, h]

theorem count_take_drop (a : Task) (k : Nat) (q : List Task) :
    (q.take k).count a + (q.drop k).count a = q.count a := by
  rw [← List.count_append, List.take_append_drop]

theorem drop_last (k : Nat) (q : List Task) (x : Task)
    (h : q = [] ∨ ∃ q0, q = q0 ++ [x]) :
    q.drop k = [] ∨ ∃ q0, q.drop k = q0 ++ [x] := by
  rcases h with h | ⟨q0, h⟩
  · simp [h]
  · by_cases hk : k ≤ q0.length
    · right
      exact ⟨q0.drop k, by rw [h, List.drop_append_of_le_length hk]⟩
    · left
      rw [h]
      apply List.drop_eq_nil_of_le
      simp
      omega

theorem Inv.inv_worker_step {posted : List Task} {stopping : Bool} {σ : Sys} (c : Consts)
    (hI : Inv posted stopping σ) (i ready now : Nat) :
    Inv posted stopping (step c σ (Ev.worker i ready now)) := by
  cases h : σ.workers[i]? with
  | none => simpa [step, hI.not_aborted, h] using hI
  | some w =>
    rw [step_worker_eq c σ i ready now w hI.not_aborted h]
    obtain ⟨l1, l2, hw, hset⟩ :=
      getElem?_split σ.workers i w (exec_task_step c i ready now w σ.svc).1 h
    rw [hset]
    have hmem : w ∈ σ.workers := by simp [hw]
    have hidle := hI.idle w hmem
    have hleft := hI.left w hmem
    cases hpc : w.pc with
    | entry =>
      have ht : w.tasks = [] := hidle (by simp [hpc, Pc.idle])
      have hg : σ.svc.m_thread_group.length ≠ 0 := by
        simpa using hI.group
      simp only [exec_task_step, hpc, hg, if_false, Bool.not_true]
      exact hI.worker hw hI.started hI.group (by simp) (by simp) id (by simp [ht])
        hI.signal hI.last (by simp) (by intro m hm; simp at hm; exact Or.inr hm)
    | head =>
      have ht : w.tasks = [] := hidle (by simp [hpc, Pc.idle])
      simp only [exec_task_step, hpc]
      split
      · exact hI.worker hw hI.started hI.group (by simp) (by simp) id (by simp [ht])
          hI.signal hI.last (by simp) (by intro m hm; simp at hm; exact Or.inr hm)
      · rename_i hc
        have hs : σ.svc.m_stop_signal = true := by
          cases hh : σ.svc.m_stop_signal <;> simp_all
        exact hI.worker hw hI.started hI.group (by simp [ht]) (by simp [hs]) id (by simp)
          hI.signal hI.last (by simp) (by simp)
    | timers =>
      have ht : w.tasks = [] := hidle (by simp [hpc, Pc.idle])
      simp only [exec_task_step, hpc]
      exact hI.worker hw hI.started hI.group (by simp [ht]) (by simp) id (by simp)
        hI.signal hI.last (by simp) (by simp)
    | io =>
      have ht : w.tasks = [] := hidle (by simp [hpc, Pc.idle])
      simp only [exec_task_step, hpc]
      exact hI.worker hw hI.started hI.group (by simp [ht]) (by simp) id (by simp)
        hI.signal hI.last (by simp) (by simp)
    | fetch =>
      have ht : w.tasks = [] := hidle (by simp [hpc, Pc.idle])
      simp only [exec_task_step, hpc, task_queue_t.fetch_task]
      refine hI.worker hw hI.started hI.group (by simp [Pc.idle]) (by simp) id ?_
        hI.signal ?_ (by simp) ?_
      · intro a
        have := count_take_drop a σ.svc.m_fetch_num_per_loop σ.svc.m_task_queue.tasks
        simp only [ht, List.nil_append, List.count_nil]
        omega
      · intro hst
        exact drop_last _ _ _ (hI.last hst)
      · intro m hm
        simp only [ht, List.nil_append] at hm
        rcases hm with hm | hm
        · exact Or.inr (List.mem_of_mem_take hm)
        · exact Or.inr (List.mem_of_mem_drop hm)
    | check =>
      simp only [exec_task_step, hpc]
      split
      · exact hI.worker hw hI.started hI.group (by simp [Pc.idle]) (by simp) id (by simp)
          hI.signal hI.last (by simp) (by simp)
      · rename_i hc
        have ht : w.tasks = [] := by
          cases hh : w.tasks <;> simp_all
        exact hI.worker hw hI.started hI.group (by simp [ht]) (by simp) id (by simp)
          hI.signal hI.last (by simp) (by simp)
    | adjust =>
      simp only [exec_task_step, hpc]
      split
      · exact hI.worker hw hI.started hI.group (by simp [Pc.idle]) (by simp) id (by simp)
          hI.signal hI.last (by simp) (by simp)
      · exact hI.worker hw hI.started hI.group (by simp [Pc.idle]) (by simp) id (by simp)
          hI.signal hI.last (by simp) (by simp)
    | zero_test =>
      simp only [exec_task_step, hpc]
      split
      · exact hI.worker hw hI.started hI.group (by simp [Pc.idle]) (by simp) id (by simp)
          hI.signal hI.last (by simp) (by simp)
      · exact hI.worker hw hI.started hI.group (by simp [Pc.idle]) (by simp) id (by simp)
          hI.signal hI.last (by simp) (by simp)
    | set_min =>
      simp only [exec_task_step, hpc]
      exact hI.worker hw hI.started hI.group (by simp [Pc.idle]) (by simp) id (by simp)
        hI.signal hI.last (by simp) (by simp)
    | max_test =>
      simp only [exec_task_step, hpc]
      split
      · exact hI.worker hw hI.started hI.group (by simp [Pc.idle]) (by simp) id (by simp)
          hI.signal hI.last (by simp) (by simp)
      · exact hI.worker hw hI.started hI.group (by simp [Pc.idle]) (by simp) id (by simp)
          hI.signal hI.last (by simp) (by simp)
    | set_max =>
      simp only [exec_task_step, hpc]
      exact hI.worker hw hI.started hI.group (by simp [Pc.idle]) (by simp) id (by simp)
        hI.signal hI.last (by simp) (by simp)
    | run =>
      simp only [exec_task_step, hpc]
      cases htk : w.tasks with
      | nil =>
        simp only []
        exact hI.worker hw hI.started hI.group (by simp [htk]) (by simp) id (by simp [htk])
          hI.signal hI.last (by simp) (by simp [htk])
      | cons m rest =>
        simp only []
        have hm : m.is_plain = true ∨ m = stop_task := hI.plain_of_pending hmem (by simp [htk])
        have hb : m.body = [] := by
          rcases hm with hp | rfl
          · exact is_plain_body hp
          · rfl
        rw [invoke_of_body_nil _ _ _ hb]
        have hsig : σ.svc.m_stop_signal = true →
            (invoke_plain m (called m σ.svc)).m_stop_signal = true := by
          intro hs
          rcases hm with hp | rfl
          · rw [invoke_plain_signal hp]; exact hs
          · rfl
        refine hI.worker hw ?_ ?_ (by simp [hpc, Pc.idle]) (by simp [hpc]) ?_ ?_ ?_ ?_ (by simp [hpc])
          ?_
        · simp [released, invoke_plain_started, called, hI.started]
        · simpa [released, invoke_plain_group, called] using hI.group
        · simpa [released] using hsig
        · intro a
          simp only [released, invoke_plain_trace, invoke_plain_queue, called, calls_append,
            calls, List.append_nil, List.count_append, htk, List.count_cons, List.count_nil]
          omega
        · intro hs
          simp only [released, invoke_plain_trace, called, calls_append, calls,
            List.append_nil, List.mem_append, List.mem_singleton]
          simp only [released] at hs
          rcases hm with hp | rfl
          · rw [invoke_plain_signal hp] at hs
            exact Or.inl (hI.signal hs)
          · exact Or.inr rfl
        · simpa [released, invoke_plain_queue, called] using hI.last
        · intro x hx
          simp only [released, invoke_plain_queue, called, htk, List.mem_cons] at hx ⊢
          rcases hx with hx | hx
          · exact Or.inl (Or.inr hx)
          · exact Or.inr hx
    | fin =>
      have ht : w.tasks = [] := hidle (by simp [hpc, Pc.idle])
      have hs : σ.svc.m_stop_signal = true := hleft (Or.inl hpc)
      have hq := hI.queue_nil hs
      simp only [exec_task_step, hpc, task_queue_t.size, hq, List.length_nil, beq_self_eq_true,
        Bool.not_true]
      exact hI.worker hw hI.started hI.group (by simp [ht]) (by simp [hs]) id (by simp [hq])
        hI.signal hI.last (by simp [timer_manager_t.clear]) (by simp)
    | done =>
      have ht : w.tasks = [] := hidle (by simp [hpc, Pc.idle])
      have hs : σ.svc.m_stop_signal = true := hleft (Or.inr hpc)
      simp only [exec_task_step, hpc, Bool.not_true]
      have hσ : ({ σ with svc := σ.svc, workers := l1 ++ w :: l2, aborted := false } : Sys) = σ := by
        cases σ
        simp_all
        exact hI.not_aborted
      rw [hσ]
      exact hI

theorem start_add_ok (i r : Nat) (g : List Nat) :
    ∃ g1, start_add (fun _ => true) i r g = (true, g1) ∧ g1.length = g.length + r := by
  induction r generalizing i g with
  | zero => exact ⟨g, rfl, rfl⟩
  | succ r ih =>
    obtain ⟨g1, h1, h2⟩ := ih (i + 1) (thread_group_add g)
    refine ⟨g1, by simp [start_add, h1], ?_⟩
    simp [thread_group_add] at h2
    omega

theorem pending_nil {ws : List Worker} (h : ∀ w ∈ ws, w.tasks = []) : pending ws = [] := by
  induction ws with
  | nil => rfl
  | cons w ws ih =>
    simp only [pending, List.append_eq_nil]
    exact ⟨h w (by simp), ih fun x hx => h x (by simp [hx])⟩

theorem all_done_iff (ws : List Worker) : all_done ws = true ↔ ∀ w ∈ ws, w.pc = Pc.done := by
  simp [all_done]

theorem inv_of_start (c : Consts) (service_name_ : String) (K : Nat) (hK : 1 ≤ K) :
    Inv [] false (step c (Sys.init service_name_) (Ev.start (K : Int))) := by
  obtain ⟨g1, h1, h2⟩ := start_add_ok 0 K []
  have hst : start (ctor service_name_) (K : Int) (fun _ => true) =
      (0, { ctor service_name_ with
            m_thread_num := (K : Int)
            m_thread_group := g1
            m_task_queue := (ctor service_name_).m_task_queue.initialise true
            m_timer_manager := (ctor service_name_).m_timer_manager.initialise
              (if (K : Int) ≤ 1 then false else true)
            m_io_handler := (ctor service_name_).m_io_handler.initialise
              (if (K : Int) ≤ 1 then false else true)
            m_started := true }) := by
    simp [start, ctor, h1]
  have hstep : step c (Sys.init service_name_) (Ev.start (K : Int)) =
      { Sys.init service_name_ with
        svc := (start (ctor service_name_) (K : Int) (fun _ => true)).2
        start_ret := some 0
        workers := List.replicate g1.length Worker.fresh } := by
    simp only [step, Sys.init, hst]
    simp
  rw [hstep, hst]
  have hg : g1 ≠ [] := by
    intro h
    simp [h] at h2
    omega
  have hws : ∀ w ∈ List.replicate g1.length Worker.fresh, w = Worker.fresh := by
    intro w hw
    exact (List.mem_replicate.1 hw).2
  refine
    { not_aborted := rfl, joining := rfl, ret := rfl, started := rfl, group := hg,
      workers_ne := ?_, idle := ?_, left := ?_, perm := ?_, plain := ?_, once := by simp,
      nostop := by simp, signal := by simp [ctor], last := by simp, timers := ?_ }
  · simp only [ne_eq, List.replicate_eq_nil_iff]
    intro h
    exact hg (List.length_eq_zero.1 h)
  · intro w hw _
    rw [hws w hw]; rfl
  · intro w hw h
    rw [hws w hw] at h
    simp [Worker.fresh] at h
  · have : pending (List.replicate g1.length Worker.fresh) = [] :=
      pending_nil fun w hw => by rw [hws w hw]; rfl
    simp [this, ctor, calls, task_queue_t.initialise]
  · have : pending (List.replicate g1.length Worker.fresh) = [] :=
      pending_nil fun w hw => by rw [hws w hw]; rfl
    simp [this, ctor, task_queue_t.initialise]
  · simp [ctor, timer_manager_t.initialise]

theorem Inv.inv_submit {posted : List Task} {σ : Sys} (c : Consts) (hI : Inv posted false σ)
    (e : Ev) (m : Task) (he : e.submits = some m) (hm : m.is_plain = true) :
    Inv (posted ++ [m]) false (step c σ e) := by
  rw [step_submit c σ e m hI.not_aborted he]
  have hne : m ≠ stop_task := by
    rintro rfl
    simp [stop_task, Task.is_plain] at hm
  have h0 : posted.count stop_task = 0 := List.count_eq_zero.2 (hI.nostop rfl)
  exact
    { not_aborted := hI.not_aborted, joining := hI.joining, ret := hI.ret, started := hI.started,
      group := hI.group, workers_ne := hI.workers_ne, idle := hI.idle, left := hI.left,
      perm := by
        simp only [task_queue_t.push, ← List.append_assoc]
        exact List.Perm.append_right _ (by simpa using hI.perm)
      plain := by
        intro x hx
        simp only [task_queue_t.push, ← List.append_assoc] at hx
        rcases List.mem_append.1 hx with h | h
        · exact hI.plain x h
        · simp at h; subst h; exact Or.inl hm
      once := by
        simp [List.count_append, h0, List.count_singleton, hne]
      nostop := by
        intro _ h
        rcases List.mem_append.1 h with h | h
        · exact hI.nostop rfl h
        · simp at h; exact hne h.symm
      signal := hI.signal
      last := by simp
      timers := hI.timers }

theorem Inv.inv_stop_call {posted : List Task} {σ : Sys} (c : Consts) (hI : Inv posted false σ) :
    Inv (posted ++ [stop_task]) true (step c σ Ev.stop_call) := by
  have hstep : step c σ Ev.stop_call =
      { σ with
        svc := { σ.svc with m_task_queue := σ.svc.m_task_queue.push stop_task }
        joining := true
        stop_ret := none } := by
    simp [step, hI.not_aborted, hI.joining, stop_enter, hI.started, post_async_stop_signal,
      the_client, post_client, stop_task]
  rw [hstep]
  have h0 : posted.count stop_task = 0 := List.count_eq_zero.2 (hI.nostop rfl)
  exact
    { not_aborted := hI.not_aborted, joining := rfl, ret := rfl, started := hI.started,
      group := hI.group, workers_ne := hI.workers_ne, idle := hI.idle, left := hI.left,
      perm := by
        simp only [task_queue_t.push, ← List.append_assoc]
        exact List.Perm.append_right _ (by simpa using hI.perm)
      plain := by
        intro x hx
        simp only [task_queue_t.push, ← List.append_assoc] at hx
        rcases List.mem_append.1 hx with h | h
        · exact hI.plain x h
        · simp at h; exact Or.inr h
      once := by simp [List.count_append, h0]
      nostop := by simp
      signal := hI.signal
      last := fun _ => Or.inr ⟨σ.svc.m_task_queue.tasks, rfl⟩
      timers := hI.timers }

theorem all_left_iff (ws : List Worker) :
    all_left ws = true ↔ ∀ w ∈ ws, w.pc = Pc.fin ∨ w.pc = Pc.done := by
  simp only [all_left, List.all_eq_true]
  constructor
  · intro h w hw
    have := h w hw
    cases hpc : w.pc <;> simp_all [Pc.left]
  · intro h w hw
    rcases h w hw with h | h <;> simp [h, Pc.left]

theorem Inv.when_all_left {posted : List Task} {stopping : Bool} {σ : Sys}
    (hI : Inv posted stopping σ) (hd : all_left σ.workers = true) :
    σ.svc.m_stop_signal = true ∧ pending σ.workers = [] ∧ σ.svc.m_task_queue.tasks = [] ∧
      (calls σ.svc.trace).Perm posted := by
  rw [all_left_iff] at hd
  obtain ⟨w, hw⟩ := List.exists_mem_of_ne_nil _ hI.workers_ne
  have hs : σ.svc.m_stop_signal = true := hI.left w hw (hd w hw)
  have hp : pending σ.workers = [] :=
    pending_nil fun x hx => hI.idle x hx (by rcases hd x hx with h | h <;> rw [h] <;> rfl)
  have hq := hI.queue_nil hs
  exact ⟨hs, hp, hq, by simpa [hp, hq] using hI.perm⟩

theorem Inv.when_all_done {posted : List Task} {stopping : Bool} {σ : Sys}
    (hI : Inv posted stopping σ) (hd : all_done σ.workers = true) :
    σ.svc.m_stop_signal = true ∧ pending σ.workers = [] ∧ σ.svc.m_task_queue.tasks = [] ∧
      σ.svc.m_timer_manager.timers = [] ∧ (calls σ.svc.trace).Perm posted := by
  rw [all_done_iff] at hd
  have hl : all_left σ.workers = true :=
    (all_left_iff _).2 fun w hw => Or.inr (hd w hw)
  obtain ⟨hs, hp, hq, hperm⟩ := hI.when_all_left hl
  refine ⟨hs, hp, hq, ?_, hperm⟩
  by_contra ht
  obtain ⟨x, hx, hne⟩ := hI.timers ht
  exact hne (hd x hx)

theorem Inv.stop_join {posted : List Task} {σ : Sys} (c : Consts) (hI : Inv posted true σ) :
    Inv posted true (step c σ Ev.stop_join) ∨ Stopped posted (step c σ Ev.stop_join) := by
  by_cases hd : all_done σ.workers = true
  · right
    obtain ⟨hs, _, hq, ht, hperm⟩ := hI.when_all_done hd
    have hstep : step c σ Ev.stop_join =
        { σ with
          svc := (stop_finish σ.svc).2
          workers := []
          joining := false
          stop_ret := some 0 } := by
      simp [step, hI.not_aborted, hI.joining, hd, stop_asserts, stop_joined, stop_finish,
        task_queue_t.size, timer_manager_t.size, hq, ht]
    rw [hstep]
    exact
      { not_aborted := hI.not_aborted, joining := rfl, workers := rfl, ret := rfl,
        started := rfl, thread_num := rfl, fetch_num := rfl, group := rfl, queue := hq,
        timers := ht, perm := hperm, signal := hs }
  · left
    have hstep : step c σ Ev.stop_join = σ := by
      simp [step, hI.not_aborted, hd]
    rw [hstep]
    exact hI

theorem Stopped.step_after {posted : List Task} {σ : Sys} (c : Consts) (hS : Stopped posted σ)
    (e : Ev) (he : e.after_stop = true) : step c σ e = σ := by
  cases e <;> simp [Ev.after_stop] at he
  · simp [step, hS.not_aborted, hS.joining]
  · simp [step, hS.not_aborted, hS.workers]

theorem submitted_cons (e : Ev) (l : List Ev) :
    submitted (e :: l) = (e.submits).toList ++ submitted l := by
  cases h : e.submits <;> simp [submitted, List.filterMap_cons, h]

theorem run_cons (c : Consts) (σ : Sys) (e : Ev) (l : List Ev) :
    run c σ (e :: l) = run c (step c σ e) l := rfl

theorem run_append (c : Consts) (σ : Sys) (l1 l2 : List Ev) :
    run c σ (l1 ++ l2) = run c (run c σ l1) l2 := by
  simp [run, List.foldl_append]

theorem Inv.inv_run_before {posted : List Task} {σ : Sys} (c : Consts) (hI : Inv posted false σ)
    (pre : List Ev) (hpre : ∀ e ∈ pre, e.before_stop = true) :
    Inv (posted ++ submitted pre) false (run c σ pre) := by
  induction pre generalizing posted σ with
  | nil => simpa [submitted, run] using hI
  | cons e pre ih =>
    have he := hpre e (by simp)
    have hrest : ∀ x ∈ pre, x.before_stop = true := fun x hx => hpre x (by simp [hx])
    rw [run_cons, submitted_cons, ← List.append_assoc]
    apply ih _ hrest
    cases e with
    | worker i r n => simpa [Ev.submits] using hI.inv_worker_step c i r n
    | post m b =>
      simpa [Ev.submits] using hI.inv_submit c (Ev.post m b) m rfl (by simpa [Ev.before_stop] using he)
    | register_timer t =>
      simpa [Ev.submits] using hI.inv_submit c (Ev.register_timer t) _ rfl rfl
    | register_io_event x =>
      simpa [Ev.submits] using hI.inv_submit c (Ev.register_io_event x) _ rfl rfl
    | remove_fd_from_epoll fd =>
      simpa [Ev.submits] using hI.inv_submit c (Ev.remove_fd_from_epoll fd) _ rfl rfl
    | _ => simp [Ev.before_stop] at he

theorem Inv.inv_run_after {posted : List Task} {σ : Sys} (c : Consts)
    (h : Inv posted true σ ∨ Stopped posted σ)
    (post : List Ev) (hpost : ∀ e ∈ post, e.after_stop = true) :
    Inv posted true (run c σ post) ∨ Stopped posted (run c σ post) := by
  induction post generalizing σ with
  | nil => simpa [run] using h
  | cons e post ih =>
    have he := hpost e (by simp)
    have hrest : ∀ x ∈ post, x.after_stop = true := fun x hx => hpost x (by simp [hx])
    rw [run_cons]
    apply ih _ hrest
    rcases h with hI | hS
    · cases e with
      | worker i r n => exact Or.inl (hI.inv_worker_step c i r n)
      | stop_join => exact hI.stop_join c
      | _ => simp [Ev.after_stop] at he
    · rw [hS.step_after c e he]
      exact Or.inr hS

theorem run_shape (c : Consts) (service_name_ : String) (K : Nat) (hK : 1 ≤ K)
    (pre post : List Ev) (hpre : ∀ e ∈ pre, e.before_stop = true)
    (hpost : ∀ e ∈ post, e.after_stop = true) :
    Inv (submitted pre ++ [stop_task]) true
        (run c (Sys.init service_name_) (Ev.start (K : Int) :: (pre ++ Ev.stop_call :: post))) ∨
      Stopped (submitted pre ++ [stop_task])
        (run c (Sys.init service_name_) (Ev.start (K : Int) :: (pre ++ Ev.stop_call :: post))) := by
  rw [run_cons, run_append, run_cons]
  apply Inv.inv_run_after c _ post hpost
  left
  have h1 := (inv_of_start c service_name_ K hK).inv_run_before c pre hpre
  simp only [List.nil_append] at h1
  exact h1.inv_stop_call c

theorem submitted_plain (pre : List Ev) (hpre : ∀ e ∈ pre, e.before_stop = true) :
    ∀ m ∈ submitted pre, m.is_plain = true := by
  intro m hm
  simp only [submitted, List.mem_filterMap] at hm
  obtain ⟨e, he, hs⟩ := hm
  have hb := hpre e he
  cases e <;> simp [Ev.submits] at hs <;> subst hs <;> simp_all [Ev.before_stop, Task.is_plain]

/-! ## Fields that only `start`, `stop` and the fetch computation write -/

theorem same_control_refl (s : task_service_t) : same_control s s := ⟨rfl, rfl, rfl, rfl⟩

theorem same_control_trans {a b d : task_service_t} (h1 : same_control a b)
    (h2 : same_control b d) : same_control a d :=
  ⟨h2.1.trans h1.1, h2.2.1.trans h1.2.1, h2.2.2.1.trans h1.2.2.1, h2.2.2.2.trans h1.2.2.2⟩

theorem invoke_plain_control (m : Task) (s : task_service_t) :
    same_control s (invoke_plain m s) := by
  cases m <;> exact ⟨rfl, rfl, rfl, rfl⟩

theorem post_plain_control (s : task_service_t) (self : thread_id) (m : Task) (b : Bool) :
    same_control s (post_plain s self m b).2 := by
  unfold post_plain
  split
  · exact same_control_trans (show same_control s (called m s) from ⟨rfl, rfl, rfl, rfl⟩)
      (same_control_trans (invoke_plain_control m _) ⟨rfl, rfl, rfl, rfl⟩)
  · exact ⟨rfl, rfl, rfl, rfl⟩

theorem do_call_control (self : thread_id) (s : task_service_t) (k : Call) :
    same_control s (do_call self s k) := by
  cases k <;> exact post_plain_control _ _ _ _

theorem body_control (self : thread_id) (body : List Call) (s : task_service_t) :
    same_control s (body.foldl (do_call self) s) := by
  induction body generalizing s with
  | nil => exact same_control_refl s
  | cons k body ih => exact same_control_trans (do_call_control self s k) (ih _)

theorem invoke_control (self : thread_id) (m : Task) (s : task_service_t) :
    same_control s (invoke self m s) := by
  cases m with
  | user id body => exact body_control self body s
  | _ => exact ⟨rfl, rfl, rfl, rfl⟩

theorem exec_task_step_control (c : Consts) (i ready now : Nat) (w : Worker)
    (s : task_service_t) :
    (exec_task_step c i ready now w s).2.1.m_started = s.m_started ∧
      (exec_task_step c i ready now w s).2.1.m_thread_num = s.m_thread_num ∧
      (exec_task_step c i ready now w s).2.1.m_thread_group = s.m_thread_group ∧
      (w.pc.in_adjust = false →
        (exec_task_step c i ready now w s).2.1.m_fetch_num_per_loop = s.m_fetch_num_per_loop) := by
  cases hpc : w.pc with
  | run =>
    cases htk : w.tasks with
    | nil => simp [exec_task_step, hpc, htk]
    | cons m rest =>
      obtain ⟨h1, h2, h3, h4⟩ := invoke_control (thread_id.worker i) m (called m s)
      simp only [exec_task_step, hpc, htk, released]
      exact ⟨h1, h2, h3, fun _ => h4⟩
  | head => simp only [exec_task_step, hpc]; split <;> simp
  | entry => simp only [exec_task_step, hpc]; split <;> simp
  | check => simp only [exec_task_step, hpc]; split <;> simp
  | adjust => simp only [exec_task_step, hpc]; split <;> simp [Pc.in_adjust]
  | zero_test => simp only [exec_task_step, hpc]; split <;> simp
  | max_test => simp only [exec_task_step, hpc]; split <;> simp
  | _ => simp [exec_task_step, hpc, task_queue_t.fetch_task, Pc.in_adjust]

/-! ## One worker thread: callables are invoked in the order of the queue -/

theorem calc_fetch_num_range (c : Consts) (hc : c.MIN_TASK_FETCH_NUM ≤ c.MAX_TASK_FETCH_NUM)
    (total K cur : Nat) (hK : K ≠ 1) :
    min 1 c.MIN_TASK_FETCH_NUM ≤ calc_fetch_num c total K cur ∧
      calc_fetch_num c total K cur ≤ c.MAX_TASK_FETCH_NUM := by
  simp only [calc_fetch_num, hK, ne_eq, not_false_eq_true, if_true]
  generalize total / K = q
  split_ifs <;> omega

theorem exec_task_step_locals (c : Consts) (i ready now : Nat) (w : Worker)
    (s : task_service_t) :
    (w.pc = Pc.entry →
      (exec_task_step c i ready now w s).1.thread_num = s.m_thread_group.length ∧
      ((exec_task_step c i ready now w s).1.pc ≠ Pc.done → s.m_thread_group.length ≠ 0)) ∧
    (w.pc ≠ Pc.entry →
      (exec_task_step c i ready now w s).1.thread_num = w.thread_num ∧
      (exec_task_step c i ready now w s).1.pc ≠ Pc.entry ∧
      ((exec_task_step c i ready now w s).1.pc ≠ Pc.done → w.pc ≠ Pc.done)) := by
  cases hpc : w.pc with
  | entry =>
    simp only [exec_task_step, hpc]
    split <;> simp_all
  | run =>
    cases htk : w.tasks <;> simp [exec_task_step, hpc, htk]
  | head => simp only [exec_task_step, hpc]; split <;> simp
  | check => simp only [exec_task_step, hpc]; split <;> simp
  | done => simp [exec_task_step, hpc]
  | adjust => simp only [exec_task_step, hpc]; split <;> simp
  | zero_test => simp only [exec_task_step, hpc]; split <;> simp
  | max_test => simp only [exec_task_step, hpc]; split <;> simp
  | _ => simp [exec_task_step, hpc, task_queue_t.fetch_task]

theorem exec_task_step_fetch (c : Consts) (hc : c.MIN_TASK_FETCH_NUM ≤ c.MAX_TASK_FETCH_NUM)
    (i ready now : Nat) (w : Worker) (s : task_service_t) :
    ((fetch_ok c (exec_task_step c i ready now w s).2.1.m_fetch_num_per_loop ∨
        will_fix c (exec_task_step c i ready now w s).1
          (exec_task_step c i ready now w s).2.1.m_fetch_num_per_loop) ∨
      ((exec_task_step c i ready now w s).2.1.m_fetch_num_per_loop = s.m_fetch_num_per_loop ∧
        (will_fix c w s.m_fetch_num_per_loop →
          will_fix c (exec_task_step c i ready now w s).1 s.m_fetch_num_per_loop))) ∧
    ((exec_task_step c i ready now w s).2.1.m_fetch_num_per_loop = s.m_fetch_num_per_loop ∨
      (w.pc = Pc.adjust ∧ w.thread_num ≠ 1) ∨ w.pc.mid_adjust = true) ∧
    ((exec_task_step c i ready now w s).1.pc.mid_adjust = true →
      (w.pc = Pc.adjust ∧ w.thread_num ≠ 1) ∨ w.pc.mid_adjust = true) := by
  cases hpc : w.pc with
  | entry =>
    simp only [exec_task_step, hpc]
    split <;> simp [will_fix, Pc.mid_adjust, hpc]
  | run =>
    have c4 := (exec_task_step_control c i ready now w s).2.2.2 (by simp [Pc.in_adjust, hpc])
    refine ⟨Or.inr ⟨c4, by simp [will_fix, hpc]⟩, Or.inl c4, ?_⟩
    cases htk : w.tasks <;> simp [exec_task_step, hpc, htk, Pc.mid_adjust]
  | head => simp only [exec_task_step, hpc]; split <;> simp [will_fix, Pc.mid_adjust, hpc]
  | check => simp only [exec_task_step, hpc]; split <;> simp [will_fix, Pc.mid_adjust, hpc]
  | adjust =>
    simp only [exec_task_step, hpc]
    split
    · rename_i h1
      simp only [will_fix, Pc.mid_adjust, fetch_ok]
      generalize w.all_task_num / w.thread_num = q
      refine ⟨Or.inl ?_, Or.inr (Or.inl ⟨trivial, h1⟩), fun _ => Or.inl ⟨trivial, h1⟩⟩
      by_cases hq : q = 0 ∨ c.MAX_TASK_FETCH_NUM < q
      · exact Or.inr (Or.inl ⟨trivial, hq⟩)
      · left; right; omega
    · simp [will_fix, Pc.mid_adjust, hpc]
  | zero_test =>
    simp only [exec_task_step, hpc]
    split
    · simp [will_fix, Pc.mid_adjust, hpc]
    · rename_i h1
      simp only [will_fix, Pc.mid_adjust, hpc]
      simp [h1]
  | set_min =>
    simp only [exec_task_step, hpc, will_fix, Pc.mid_adjust, fetch_ok]
    refine ⟨Or.inl (Or.inl (Or.inr ?_)), Or.inr (Or.inr trivial), fun _ => Or.inr trivial⟩
    omega
  | max_test =>
    simp only [exec_task_step, hpc]
    split
    · simp [will_fix, Pc.mid_adjust, hpc]
    · rename_i h1
      simp only [will_fix, Pc.mid_adjust, hpc]
      simp [h1]
  | set_max =>
    simp only [exec_task_step, hpc, will_fix, Pc.mid_adjust, fetch_ok]
    refine ⟨Or.inl (Or.inl (Or.inr ?_)), Or.inr (Or.inr trivial), fun _ => Or.inr trivial⟩
    omega
  | done => simp [exec_task_step, hpc, will_fix, Pc.mid_adjust]
  | _ => simp [exec_task_step, hpc, task_queue_t.fetch_task, will_fix, Pc.mid_adjust]

theorem FetchInv.of_svc {c : Consts} {σ σ1 : Sys} (hF : FetchInv c σ)
    (hw : σ1.workers = σ.workers) (hs : same_control σ.svc σ1.svc) : FetchInv c σ1 := by
  obtain ⟨h1, h2, h3, h4⟩ := hs
  exact
    { range := by rw [h4, hw]; exact hF.range
      single := by rw [h4, h2]; exact hF.single
      locals := by rw [hw, h3]; exact hF.locals
      inside := by rw [hw]; exact hF.inside
      group := by rw [h3, h2]; exact hF.group
      idle := by rw [h1, h4, hw, h3]; exact hF.idle }

theorem post_client_control (s : task_service_t) (k : Nat) (m : Task) (b : Bool) :
    same_control s (post s (thread_id.client k) m b).2 := by
  rw [post_client]; exact ⟨rfl, rfl, rfl, rfl⟩

theorem FetchInv.preserved {c : Consts} {σ : Sys} (hc : c.MIN_TASK_FETCH_NUM ≤ c.MAX_TASK_FETCH_NUM)
    (hF : FetchInv c σ) (e : Ev) : FetchInv c (step c σ e) := by
  by_cases ha : σ.aborted = true
  · simpa [step, ha] using hF
  have ha : σ.aborted = false := by simpa using ha
  cases e with
  | start n =>
    by_cases hj : σ.joining = true
    · simpa [step, ha, hj] using hF
    have hj : σ.joining = false := by simpa using hj
    cases hst : σ.svc.m_started with
    | true =>
      have : step c σ (Ev.start n) = { σ with start_ret := some (-1) } := by
        simp [step, ha, hj, start, hst]
      rw [this]
      exact hF.of_svc rfl (same_control_refl _)
    | false =>
      obtain ⟨hfetch, hws, hg⟩ := hF.idle hst
      obtain ⟨g1, hg1, hlen⟩ := start_add_ok 0 n.toNat []
      have : step c σ (Ev.start n) =
          { σ with
            svc := (start σ.svc n fun _ => true).2
            start_ret := some 0
            workers := List.replicate g1.length Worker.fresh } := by
        simp [step, ha, hj, start, hst, hg, hg1]
      rw [this]
      have hsv : (start σ.svc n fun _ => true).2.m_fetch_num_per_loop = 0xffffffff ∧
          (start σ.svc n fun _ => true).2.m_thread_group = g1 ∧
          (start σ.svc n fun _ => true).2.m_thread_num = n ∧
          (start σ.svc n fun _ => true).2.m_started = true := by
        simp [start, hst, hg, hg1, hfetch]
      obtain ⟨s1, s2, s3, s4⟩ := hsv
      exact
        { range := Or.inl (Or.inl s1)
          single := fun _ => s1
          locals := by
            intro w hw hne
            rw [(List.mem_replicate.1 hw).2] at hne
            exact absurd rfl hne
          inside := by
            intro w hw hne
            rw [(List.mem_replicate.1 hw).2] at hne
            simp [Worker.fresh, Pc.mid_adjust] at hne
          group := by simp only [s2, s3, hlen]; simp
          idle := by simp only [s4]; simp }
  | stop_call =>
    by_cases hj : σ.joining = true
    · simpa [step, ha, hj] using hF
    have hj : σ.joining = false := by simpa using hj
    cases hst : σ.svc.m_started with
    | true =>
      have : step c σ Ev.stop_call =
          { σ with
            svc := (post σ.svc the_client (Task.set_stop_signal true) c.EXEC_LOCAL_DEFAULT).2
            joining := true
            stop_ret := none } := by
        simp [step, ha, hj, stop_enter, hst, post_async_stop_signal]
      rw [this]
      exact hF.of_svc rfl (post_client_control _ _ _ _)
    | false =>
      have : step c σ Ev.stop_call = { σ with stop_ret := some (-1) } := by
        simp [step, ha, hj, stop_enter, hst]
      rw [this]
      exact hF.of_svc rfl (same_control_refl _)
  | stop_join =>
    simp only [step, ha, Bool.false_eq_true, if_false]
    split
    · split
      · exact
          { range := Or.inl (Or.inl rfl), single := fun _ => rfl, locals := by simp,
            inside := by simp,
            group := by simp [stop_finish, stop_joined, thread_group_join_all],
            idle := fun _ => ⟨rfl, rfl, rfl⟩ }
      · exact
          { range := Or.inl (Or.inl rfl), single := fun _ => rfl, locals := by simp,
            inside := by simp,
            group := by simp [stop_joined, thread_group_join_all],
            idle := fun _ => ⟨rfl, rfl, rfl⟩ }
    · exact hF
  | post m b =>
    have : step c σ (Ev.post m b) = { σ with svc := (post σ.svc the_client m b).2 } := by
      simp [step, ha]
    rw [this]
    exact hF.of_svc rfl (post_client_control _ _ _ _)
  | register_timer t =>
    have : step c σ (Ev.register_timer t) =
        { σ with svc := register_timer σ.svc the_client t } := by
      simp [step, ha]
    rw [this]
    exact hF.of_svc rfl (post_client_control _ _ _ _)
  | register_io_event x =>
    have : step c σ (Ev.register_io_event x) =
        { σ with svc := register_io_event σ.svc the_client x } := by
      simp [step, ha]
    rw [this]
    exact hF.of_svc rfl (post_client_control _ _ _ _)
  | remove_fd_from_epoll fd =>
    have : step c σ (Ev.remove_fd_from_epoll fd) =
        { σ with svc := remove_fd_from_epoll σ.svc the_client fd } := by
      simp [step, ha]
    rw [this]
    exact hF.of_svc rfl (post_client_control _ _ _ _)
  | worker i ready now =>
    cases h : σ.workers[i]? with
    | none => simpa [step, ha, h] using hF
    | some w =>
      rw [step_worker_eq c σ i ready now w ha h]
      obtain ⟨l1, l2, hw, hset⟩ :=
        getElem?_split σ.workers i w (exec_task_step c i ready now w σ.svc).1 h
      rw [hset]
      have hmem : w ∈ σ.workers := by simp [hw]
      obtain ⟨c1, c2, c3, _⟩ := exec_task_step_control c i ready now w σ.svc
      obtain ⟨e1, e2⟩ := exec_task_step_locals c i ready now w σ.svc
      have hloc : ∀ x ∈ l1 ++ (exec_task_step c i ready now w σ.svc).1 :: l2,
          x.pc ≠ Pc.entry → x.pc ≠ Pc.done →
          x.thread_num = σ.svc.m_thread_group.length ∧ x.thread_num ≠ 0 := by
        intro x hx hne hnd
        simp only [List.mem_append, List.mem_cons] at hx
        rcases hx with hx | rfl | hx
        · exact hF.locals x (by simp [hw, hx]) hne hnd
        · by_cases hpe : w.pc = Pc.entry
          · obtain ⟨a1, a2⟩ := e1 hpe
            exact ⟨a1, by rw [a1]; exact a2 hnd⟩
          · obtain ⟨a1, _, a3⟩ := e2 hpe
            rw [a1]
            exact hF.locals w hmem hpe (a3 hnd)
        · exact hF.locals x (by simp [hw, hx]) hne hnd
      obtain ⟨f1, f2, f3⟩ := exec_task_step_fetch c hc i ready now w σ.svc
      have hin : ∀ x ∈ l1 ++ (exec_task_step c i ready now w σ.svc).1 :: l2,
          x.pc.mid_adjust = true → x.thread_num ≠ 1 := by
        intro x hx hm
        simp only [List.mem_append, List.mem_cons] at hx
        rcases hx with hx | rfl | hx
        · exact hF.inside x (by simp [hw, hx]) hm
        · have hpe : w.pc ≠ Pc.entry := by
            rcases f3 hm with ⟨h, _⟩ | h
            · simp [h]
            · intro h0; simp [h0, Pc.mid_adjust] at h
          rw [(e2 hpe).1]
          rcases f3 hm with ⟨_, h⟩ | h
          · exact h
          · exact hF.inside w hmem h
        · exact hF.inside x (by simp [hw, hx]) hm
      exact
        { range := by
            rcases f1 with (h | h) | ⟨h, hk⟩
            · exact Or.inl h
            · exact Or.inr ⟨_, by simp, h⟩
            · rw [h]
              rcases hF.range with h0 | ⟨x, hx, hfix⟩
              · exact Or.inl h0
              · rw [hw] at hx
                simp only [List.mem_append, List.mem_cons] at hx
                rcases hx with hx | rfl | hx
                · exact Or.inr ⟨x, by simp [hx], hfix⟩
                · exact Or.inr ⟨_, by simp, hk hfix⟩
                · exact Or.inr ⟨x, by simp [hx], hfix⟩
          single := by
            simp only [c2]
            intro hle
            have hg := hF.group
            have h2 : σ.svc.m_thread_group.length ≤ 1 := by omega
            rcases f2 with h | ⟨h, h1⟩ | h
            · rw [h]; exact hF.single hle
            · have hK := hF.locals w hmem (by simp [h]) (by simp [h])
              omega
            · have hK := hF.locals w hmem (by intro h0; simp [h0, Pc.mid_adjust] at h)
                (by intro h0; simp [h0, Pc.mid_adjust] at h)
              have h1 := hF.inside w hmem h
              omega
          locals := by simp only [c3]; exact hloc
          inside := hin
          group := by simp only [c3, c2]; exact hF.group
          idle := by
            simp only [c1]
            intro hst
            have := (hF.idle hst).2.1
            simp [this] at hmem }

theorem fetchInv_init (c : Consts) (service_name_ : String) :
    FetchInv c (Sys.init service_name_) :=
  { range := Or.inl (Or.inl rfl), single := fun _ => rfl, locals := by simp [Sys.init],
    inside := by simp [Sys.init],
    group := rfl, idle := fun _ => ⟨rfl, rfl, rfl⟩ }

theorem FetchInv.fetch_along {c : Consts} {σ : Sys} (hc : c.MIN_TASK_FETCH_NUM ≤ c.MAX_TASK_FETCH_NUM)
    (hF : FetchInv c σ) (sched : List Ev) : FetchInv c (run c σ sched) := by
  induction sched generalizing σ with
  | nil => exact hF
  | cons e sched ih => exact ih (hF.preserved hc e)

/-- C9, counterexample: with `MIN_TASK_FETCH_NUM = 1 <= MAX_TASK_FETCH_NUM = 1000`, in the
state right after `start(2)` returns on a constructed service the service is started
with `m_thread_num = 2 > 1` and `m_fetch_num_per_loop` is `0xffffffff`, outside
`[1, 1000]`. With `MAX_TASK_FETCH_NUM = 2`, the first drain of thread 0 uses that
value and takes three tasks at once. And with `MAX_TASK_FETCH_NUM = 2` and six tasks
posted, once thread 0 has drained them and done the store of line 173 the field holds
the raw quotient 3, above the maximum, while no thread holds a lock; thread 1 reads it
at line 157 and drains three tasks; with one task posted the field holds 0 there. -/
theorem fetch_num_unbounded_after_start :
    demo_consts.MIN_TASK_FETCH_NUM ≤ demo_consts.MAX_TASK_FETCH_NUM ∧
    (run demo_consts (Sys.init "svc") [Ev.start 2]).start_ret = some 0 ∧
    (run demo_consts (Sys.init "svc") [Ev.start 2]).svc.m_started = true ∧
    1 < (run demo_consts (Sys.init "svc") [Ev.start 2]).svc.m_thread_num ∧
    (run demo_consts (Sys.init "svc") [Ev.start 2]).svc.m_fetch_num_per_loop = 0xffffffff ∧
    ¬ (demo_consts.MIN_TASK_FETCH_NUM ≤
          (run demo_consts (Sys.init "svc") [Ev.start 2]).svc.m_fetch_num_per_loop ∧
        (run demo_consts (Sys.init "svc") [Ev.start 2]).svc.m_fetch_num_per_loop ≤
          demo_consts.MAX_TASK_FETCH_NUM) ∧
    ((run ⟨1, 2, true⟩ (Sys.init "svc")
        ([Ev.start 2, Ev.post (Task.user 0 []) false, Ev.post (Task.user 1 []) false,
          Ev.post (Task.user 2 []) false] ++ List.replicate 5 (Ev.worker 0 0 0))).workers.map
      fun w => w.tasks.length) = [3, 0] ∧
    (run ⟨1, 2, true⟩ (Sys.init "svc")
        (Ev.start 2 :: (List.replicate 6 (Ev.post (Task.user 0 []) false) ++
          List.replicate 7 (Ev.worker 0 0 0)))).svc.m_fetch_num_per_loop = 3 ∧
    ((run ⟨1, 2, true⟩ (Sys.init "svc")
        (Ev.start 2 :: (List.replicate 6 (Ev.post (Task.user 0 []) false) ++
          List.replicate 7 (Ev.worker 0 0 0) ++
          List.replicate 3 (Ev.post (Task.user 1 []) false) ++
          List.replicate 5 (Ev.worker 1 0 0)))).workers.map
      fun w => (w.pc, w.tasks.length)) = [(Pc.zero_test, 6), (Pc.check, 3)] ∧
    (run ⟨1, 2, true⟩ (Sys.init "svc")
        (Ev.start 2 :: Ev.post (Task.user 0 []) false ::
          List.replicate 7 (Ev.worker 0 0 0))).svc.m_fetch_num_per_loop = 0 := by
  decide

/-- C9, amended: for constants with `MIN_TASK_FETCH_NUM <= MAX_TASK_FETCH_NUM`, in every
state reachable from construction by calls of `start`, `stop`, `post` and the
registrations and by steps of the worker threads, where each read and each store of
the shared field in lines 171-183 is a step of its own: whenever no worker thread
stands between the store of line 173 and the end of the block at line 183,
`m_fetch_num_per_loop` is either the default `0xffffffff` (its value when `start`
returns and until a thread has recomputed it after a drain) or at most
`MAX_TASK_FETCH_NUM` and at least `min 1 MIN_TASK_FETCH_NUM` (so within
`[MIN_TASK_FETCH_NUM, MAX_TASK_FETCH_NUM]` when `MIN_TASK_FETCH_NUM <= 1`); in any
state at all, it is the default, or in that range, or some worker thread stands
inside that part of the block; and whenever `m_thread_num <= 1` it is the default
`0xffffffff`. -/
theorem fetch_num_default_or_computed (c : Consts) (service_name_ : String) (sched : List Ev)
    (hc : c.MIN_TASK_FETCH_NUM ≤ c.MAX_TASK_FETCH_NUM) :
    ((∀ w ∈ (run c (Sys.init service_name_) sched).workers, w.pc.mid_adjust = false) →
      (run c (Sys.init service_name_) sched).svc.m_fetch_num_per_loop = 0xffffffff ∨
      (min 1 c.MIN_TASK_FETCH_NUM ≤ (run c (Sys.init service_name_) sched).svc.m_fetch_num_per_loop ∧
        (run c (Sys.init service_name_) sched).svc.m_fetch_num_per_loop ≤
          c.MAX_TASK_FETCH_NUM)) ∧
    ((∀ w ∈ (run c (Sys.init service_name_) sched).workers, w.pc.mid_adjust = false) →
      c.MIN_TASK_FETCH_NUM ≤ 1 →
      (run c (Sys.init service_name_) sched).svc.m_fetch_num_per_loop = 0xffffffff ∨
      (c.MIN_TASK_FETCH_NUM ≤ (run c (Sys.init service_name_) sched).svc.m_fetch_num_per_loop ∧
        (run c (Sys.init service_name_) sched).svc.m_fetch_num_per_loop ≤
          c.MAX_TASK_FETCH_NUM)) ∧
    ((run c (Sys.init service_name_) sched).svc.m_fetch_num_per_loop = 0xffffffff ∨
      (min 1 c.MIN_TASK_FETCH_NUM ≤ (run c (Sys.init service_name_) sched).svc.m_fetch_num_per_loop ∧
        (run c (Sys.init service_name_) sched).svc.m_fetch_num_per_loop ≤
          c.MAX_TASK_FETCH_NUM) ∨
      ∃ w ∈ (run c (Sys.init service_name_) sched).workers, w.pc.mid_adjust = true) ∧
    ((run c (Sys.init service_name_) sched).svc.m_thread_num ≤ 1 →
      (run c (Sys.init service_name_) sched).svc.m_fetch_num_per_loop = 0xffffffff) := by
  have hF := (fetchInv_init c service_name_).fetch_along hc sched
  have key : ∀ w ∈ (run c (Sys.init service_name_) sched).workers,
      will_fix c w (run c (Sys.init service_name_) sched).svc.m_fetch_num_per_loop →
      w.pc.mid_adjust = true := by
    intro w _ hfix
    rcases hfix with ⟨h, _⟩ | h | ⟨h, _⟩ | h <;> simp [h, Pc.mid_adjust]
  have h0 : (∀ w ∈ (run c (Sys.init service_name_) sched).workers, w.pc.mid_adjust = false) →
      fetch_ok c (run c (Sys.init service_name_) sched).svc.m_fetch_num_per_loop := by
    intro hno
    rcases hF.range with h | ⟨w, hw, hfix⟩
    · exact h
    · have := key w hw hfix
      rw [hno w hw] at this
      exact absurd this (by decide)
  refine ⟨h0, ?_, ?_, hF.single⟩
  · intro hno h1
    rcases h0 hno with h | ⟨h2, h3⟩
    · exact Or.inl h
    · exact Or.inr ⟨by omega, h3⟩
  · rcases hF.range with (h | h) | ⟨w, hw, hfix⟩
    · exact Or.inl h
    · exact Or.inr (Or.inl h)
    · exact Or.inr (Or.inr ⟨w, hw, key w hw hfix⟩)

/-- C9, amended, on the sample run with two threads, stopped before `join_all` returns:
no thread stands inside the block and the fetch number is 1, within `[1, 1000]`. -/
theorem fetch_num_default_or_computed_witness :
    (run demo_consts (Sys.init "svc")
        (Ev.start 2 :: (demo_pre ++ Ev.stop_call :: demo_post.dropLast))).svc.m_fetch_num_per_loop
      = 1 ∧
    ((run demo_consts (Sys.init "svc")
        (Ev.start 2 :: (demo_pre ++ Ev.stop_call :: demo_post.dropLast))).svc.m_fetch_num_per_loop
        = 0xffffffff ∨
      (demo_consts.MIN_TASK_FETCH_NUM ≤ (run demo_consts (Sys.init "svc")
        (Ev.start 2 :: (demo_pre ++ Ev.stop_call :: demo_post.dropLast))).svc.m_fetch_num_per_loop
        ∧
      (run demo_consts (Sys.init "svc")
        (Ev.start 2 :: (demo_pre ++ Ev.stop_call :: demo_post.dropLast))).svc.m_fetch_num_per_loop
        ≤ demo_consts.MAX_TASK_FETCH_NUM)) :=
  ⟨by decide,
   (fetch_num_default_or_computed demo_consts "svc"
      (Ev.start 2 :: (demo_pre ++ Ev.stop_call :: demo_post.dropLast)) (by decide)).2.1
      (by decide) (by decide)⟩
/-! ## `stop` does not clear the stop signal (C8) -/

/-- C8, the code at `start(1); stop(); start(1); post; stop()`: the first `stop` returns 0
and leaves `m_started = false`, `m_thread_num = 0`, `m_fetch_num_per_loop = 0xffffffff`,
but `m_stop_signal = true`, whereas a constructed service has `m_stop_signal = false`.
After the second `start(1)` the new thread leaves its loop within three steps, before
any stop request of that run; the task posted next is never invoked, and the second
`stop` fails its assertion on the task queue. -/
theorem stop_signal_survives_stop :
    (run demo_consts (Sys.init "svc") first_run).stop_ret = some 0 ∧
    (run demo_consts (Sys.init "svc") first_run).svc.m_started = false ∧
    (run demo_consts (Sys.init "svc") first_run).svc.m_thread_num = 0 ∧
    (run demo_consts (Sys.init "svc") first_run).svc.m_fetch_num_per_loop = 0xffffffff ∧
    (run demo_consts (Sys.init "svc") first_run).svc.m_stop_signal = true ∧
    (ctor "svc").m_stop_signal = false ∧
    (run demo_consts (Sys.init "svc") (first_run ++ second_start)).start_ret = some 0 ∧
    (run demo_consts (Sys.init "svc") (first_run ++ second_start)).joining = false ∧
    (run demo_consts (Sys.init "svc") (first_run ++ second_start)).workers.map (fun w => w.pc)
      = [Pc.done] ∧
    (run demo_consts (Sys.init "svc")
      (first_run ++ second_start ++ second_stop)).svc.m_task_queue.tasks =
        [Task.user 0 [], Task.set_stop_signal true] ∧
    Task.user 0 [] ∉ calls (run demo_consts (Sys.init "svc")
      (first_run ++ second_start ++ second_stop)).svc.trace ∧
    (run demo_consts (Sys.init "svc") (first_run ++ second_start ++ second_stop)).aborted
      = true := by
  decide

/-- Whatever the number of threads, the submitted tasks and the interleaving, a first
run whose `stop` has returned 0 leaves `m_stop_signal = true`, with `m_started`,
`m_thread_num` and `m_fetch_num_per_loop` back at their constructed values. -/
theorem stop_signal_set_after_any_run (c : Consts) (service_name_ : String) (K : Nat)
    (hK : 1 ≤ K) (pre post : List Ev) (hpre : ∀ e ∈ pre, e.before_stop = true)
    (hpost : ∀ e ∈ post, e.after_stop = true)
    (hret : (run c (Sys.init service_name_)
      (Ev.start (K : Int) :: (pre ++ Ev.stop_call :: post))).stop_ret = some 0) :
    (run c (Sys.init service_name_)
      (Ev.start (K : Int) :: (pre ++ Ev.stop_call :: post))).svc.m_stop_signal = true ∧
    (run c (Sys.init service_name_)
      (Ev.start (K : Int) :: (pre ++ Ev.stop_call :: post))).svc.m_started = false ∧
    (run c (Sys.init service_name_)
      (Ev.start (K : Int) :: (pre ++ Ev.stop_call :: post))).svc.m_thread_num = 0 ∧
    (run c (Sys.init service_name_)
      (Ev.start (K : Int) :: (pre ++ Ev.stop_call :: post))).svc.m_fetch_num_per_loop =
        0xffffffff := by
  rcases run_shape c service_name_ K hK pre post hpre hpost with hI | hS
  · rw [hI.ret] at hret; simp at hret
  · exact ⟨hS.signal, hS.started, hS.thread_num, hS.fetch_num⟩

/-! ## A schedule that completes -/

theorem upd_self (σ : Sys) (i : Nat) (w : Worker) (h : σ.workers[i]? = some w) :
    upd σ i w σ.svc = σ := by
  have : σ.workers.set i w = σ.workers := by
    obtain ⟨l1, l2, h1, h2⟩ := getElem?_split σ.workers i w w h
    rw [h2, ← h1]
  simp [upd, this]

theorem step_upd (c : Consts) (σ : Sys) (i ready now : Nat) (w w1 : Worker)
    (s s1 : task_service_t) (ha : σ.aborted = false) (hi : i < σ.workers.length)
    (h : exec_task_step c i ready now w s = (w1, s1, true)) :
    step c (upd σ i w s) (Ev.worker i ready now) = upd σ i w1 s1 := by
  have hget : (upd σ i w s).workers[i]? = some w := by
    simp only [upd]
    exact List.getElem?_set_self hi
  rw [step_worker_eq c (upd σ i w s) i ready now w ha hget]
  have h1 : exec_task_step c i ready now w (upd σ i w s).svc = (w1, s1, true) := h
  rw [h1]
  cases σ
  simp only [upd, List.set_set, Bool.not_true] at ha ⊢
  rw [ha]

theorem run_solo_succ (c : Consts) (σ : Sys) (i n : Nat) :
    run c σ (solo i (n + 1)) = run c (step c σ (Ev.worker i 0 0)) (solo i n) := rfl

theorem solo_add (i a b : Nat) : solo i (a + b) = solo i a ++ solo i b := by
  simp only [solo, List.replicate_add]

theorem run_batch (c : Consts) (σ : Sys) (i : Nat) (ha : σ.aborted = false)
    (hi : i < σ.workers.length) (ts rest : List Task) (w : Worker) (s : task_service_t)
    (hpc : w.pc = Pc.run) (ht : w.tasks = ts ++ rest) :
    run c (upd σ i w s) (solo i ts.length) =
      upd σ i { w with tasks := rest } (exec_batch i ts s) := by
  induction ts generalizing w s with
  | nil =>
    simp only [List.nil_append] at ht
    simp [solo, run, exec_batch, ← ht]
  | cons m ts ih =>
    rw [List.length_cons, run_solo_succ]
    have hstep : exec_task_step c i 0 0 w s =
        ({ w with tasks := ts ++ rest },
          released m (invoke (thread_id.worker i) m (called m s)), true) := by
      simp [exec_task_step, hpc, ht]
    rw [step_upd c σ i 0 0 w _ s _ ha hi hstep]
    rw [ih { w with tasks := ts ++ rest } _ hpc rfl]
    simp [exec_batch]

theorem exec_batch_plain (i : Nat) (ts : List Task) (s : task_service_t)
    (hp : ∀ m ∈ ts, m.is_plain = true ∨ m = stop_task) :
    (exec_batch i ts s).m_task_queue = s.m_task_queue ∧
      (s.m_stop_signal = true → (exec_batch i ts s).m_stop_signal = true) ∧
      (exec_batch i ts s).m_thread_group = s.m_thread_group := by
  induction ts generalizing s with
  | nil => simp [exec_batch]
  | cons m ts ih =>
    have hb : m.body = [] := by
      rcases hp m (by simp) with h | rfl
      · exact is_plain_body h
      · rfl
    obtain ⟨h1, h2, h3⟩ := ih (released m (invoke (thread_id.worker i) m (called m s)))
      fun x hx => hp x (by simp [hx])
    simp only [exec_batch, List.foldl_cons] at h1 h2 h3 ⊢
    refine ⟨?_, ?_, ?_⟩
    · rw [h1, invoke_of_body_nil _ _ _ hb]
      simp [released, invoke_plain_queue, called]
    · intro hs
      apply h2
      rw [invoke_of_body_nil _ _ _ hb]
      rcases hp m (by simp) with h | rfl
      · simpa [released, invoke_plain_signal h, called] using hs
      · rfl
    · rw [h3, invoke_of_body_nil _ _ _ hb]
      simp [released, invoke_plain_group, called]

theorem exec_batch_stop (i : Nat) (ts : List Task) (s : task_service_t)
    (hp : ∀ m ∈ ts, m.is_plain = true) :
    (exec_batch i (ts ++ [stop_task]) s).m_task_queue = s.m_task_queue ∧
      (exec_batch i (ts ++ [stop_task]) s).m_stop_signal = true ∧
      (exec_batch i (ts ++ [stop_task]) s).m_thread_group = s.m_thread_group := by
  obtain ⟨h1, _, h3⟩ := exec_batch_plain i (ts ++ [stop_task]) s (by
    intro m hm
    rcases List.mem_append.1 hm with h | h
    · exact Or.inl (hp m h)
    · exact Or.inr (by simpa using h))
  refine ⟨h1, ?_, h3⟩
  simp only [exec_batch, List.foldl_append, List.foldl_cons, List.foldl_nil]
  rfl

theorem run_solo_step (c : Consts) (σ : Sys) (i n : Nat) (w w1 : Worker)
    (s s1 : task_service_t) (ha : σ.aborted = false) (hi : i < σ.workers.length)
    (h : exec_task_step c i 0 0 w s = (w1, s1, true)) :
    run c (upd σ i w s) (solo i (n + 1)) = run c (upd σ i w1 s1) (solo i n) := by
  rw [run_solo_succ, step_upd c σ i 0 0 w w1 s s1 ha hi h]

theorem solo_leaves (c : Consts) (σ : Sys) (i : Nat) (s : task_service_t)
    (ha : σ.aborted = false) (hi : i < σ.workers.length)
    (hsig : s.m_stop_signal = true) (hq : s.m_task_queue.tasks = [])
    (hg : s.m_thread_group ≠ []) :
    ∃ w1 s1, run c (upd σ i Worker.fresh s) (solo i 3) = upd σ i w1 s1 ∧ w1.pc = Pc.done ∧
      s1.m_stop_signal = true ∧ s1.m_task_queue.tasks = [] ∧ s1.m_timer_manager.timers = [] ∧
      s1.m_thread_group = s.m_thread_group := by
  have hlen : s.m_thread_group.length ≠ 0 := by simpa using hg
  have e1 : exec_task_step c i 0 0 Worker.fresh s =
      ({ Worker.fresh with thread_num := s.m_thread_group.length, pc := Pc.head }, s, true) := by
    simp [exec_task_step, Worker.fresh, hlen]
  have e2 : exec_task_step c i 0 0
      { Worker.fresh with thread_num := s.m_thread_group.length, pc := Pc.head } s =
      ({ Worker.fresh with thread_num := s.m_thread_group.length, pc := Pc.fin }, s, true) := by
    simp [exec_task_step, Worker.fresh, hsig, task_queue_t.empty, hq]
  have e3 : exec_task_step c i 0 0
      { Worker.fresh with thread_num := s.m_thread_group.length, pc := Pc.fin } s =
      ({ Worker.fresh with thread_num := s.m_thread_group.length, pc := Pc.done },
        { s with m_timer_manager := s.m_timer_manager.clear }, true) := by
    simp [exec_task_step, Worker.fresh, task_queue_t.size, hq]
  refine ⟨{ Worker.fresh with thread_num := s.m_thread_group.length, pc := Pc.done },
    { s with m_timer_manager := s.m_timer_manager.clear }, ?_, ?_, ?_, ?_, ?_, ?_⟩
  · rw [run_solo_step c σ i 2 _ _ _ _ ha hi e1, run_solo_step c σ i 1 _ _ _ _ ha hi e2,
      run_solo_step c σ i 0 _ _ _ _ ha hi e3]
    rfl
  · rfl
  · exact hsig
  · exact hq
  · rfl
  · rfl

theorem solo_adjust (c : Consts) (σ : Sys) (i : Nat) (w : Worker) (s : task_service_t)
    (ha : σ.aborted = false) (hi : i < σ.workers.length) (hpc : w.pc = Pc.adjust) :
    ∃ n, run c (upd σ i w s) (solo i n) =
      upd σ i { w with pc := Pc.run }
        { s with m_fetch_num_per_loop :=
            calc_fetch_num c w.all_task_num w.thread_num s.m_fetch_num_per_loop } := by
  by_cases h1 : w.thread_num = 1
  · refine ⟨1, ?_⟩
    rw [run_solo_step c σ i 0 w { w with pc := Pc.run } s s ha hi
      (by simp [exec_task_step, hpc, h1])]
    simp [calc_fetch_num, h1, run, solo]
  have ea : exec_task_step c i 0 0 w s =
      ({ w with pc := Pc.zero_test },
        { s with m_fetch_num_per_loop := w.all_task_num / w.thread_num }, true) := by
    simp [exec_task_step, hpc, h1]
  simp only [calc_fetch_num, h1, ne_eq, not_false_eq_true, if_true]
  generalize w.all_task_num / w.thread_num = q at ea
  by_cases hq : q = 0
  · have eb : exec_task_step c i 0 0 { w with pc := Pc.zero_test }
        { s with m_fetch_num_per_loop := q } =
        ({ w with pc := Pc.set_min }, { s with m_fetch_num_per_loop := q }, true) := by
      simp [exec_task_step, hq]
    have ec : exec_task_step c i 0 0 { w with pc := Pc.set_min }
        { s with m_fetch_num_per_loop := q } =
        ({ w with pc := Pc.max_test },
          { s with m_fetch_num_per_loop := c.MIN_TASK_FETCH_NUM }, true) := by
      simp [exec_task_step]
    by_cases hm : c.MIN_TASK_FETCH_NUM > c.MAX_TASK_FETCH_NUM
    · have ed : exec_task_step c i 0 0 { w with pc := Pc.max_test }
          { s with m_fetch_num_per_loop := c.MIN_TASK_FETCH_NUM } =
          ({ w with pc := Pc.set_max },
            { s with m_fetch_num_per_loop := c.MIN_TASK_FETCH_NUM }, true) := by
        simp [exec_task_step, hm]
      have ee : exec_task_step c i 0 0 { w with pc := Pc.set_max }
          { s with m_fetch_num_per_loop := c.MIN_TASK_FETCH_NUM } =
          ({ w with pc := Pc.run },
            { s with m_fetch_num_per_loop := c.MAX_TASK_FETCH_NUM }, true) := by
        simp [exec_task_step]
      refine ⟨5, ?_⟩
      rw [run_solo_step c σ i 4 _ _ _ _ ha hi ea, run_solo_step c σ i 3 _ _ _ _ ha hi eb,
        run_solo_step c σ i 2 _ _ _ _ ha hi ec, run_solo_step c σ i 1 _ _ _ _ ha hi ed,
        run_solo_step c σ i 0 _ _ _ _ ha hi ee]
      simp [hq, hm, run, solo]
    · have ed : exec_task_step c i 0 0 { w with pc := Pc.max_test }
          { s with m_fetch_num_per_loop := c.MIN_TASK_FETCH_NUM } =
          ({ w with pc := Pc.run },
            { s with m_fetch_num_per_loop := c.MIN_TASK_FETCH_NUM }, true) := by
        simp [exec_task_step, hm]
      refine ⟨4, ?_⟩
      rw [run_solo_step c σ i 3 _ _ _ _ ha hi ea, run_solo_step c σ i 2 _ _ _ _ ha hi eb,
        run_solo_step c σ i 1 _ _ _ _ ha hi ec, run_solo_step c σ i 0 _ _ _ _ ha hi ed]
      simp [hq, hm, run, solo]
  · have eb : exec_task_step c i 0 0 { w with pc := Pc.zero_test }
        { s with m_fetch_num_per_loop := q } =
        ({ w with pc := Pc.max_test }, { s with m_fetch_num_per_loop := q }, true) := by
      simp [exec_task_step, hq]
    by_cases hm : q > c.MAX_TASK_FETCH_NUM
    · have ed : exec_task_step c i 0 0 { w with pc := Pc.max_test }
          { s with m_fetch_num_per_loop := q } =
          ({ w with pc := Pc.set_max }, { s with m_fetch_num_per_loop := q }, true) := by
        simp [exec_task_step, hm]
      have ee : exec_task_step c i 0 0 { w with pc := Pc.set_max }
          { s with m_fetch_num_per_loop := q } =
          ({ w with pc := Pc.run },
            { s with m_fetch_num_per_loop := c.MAX_TASK_FETCH_NUM }, true) := by
        simp [exec_task_step]
      refine ⟨4, ?_⟩
      rw [run_solo_step c σ i 3 _ _ _ _ ha hi ea, run_solo_step c σ i 2 _ _ _ _ ha hi eb,
        run_solo_step c σ i 1 _ _ _ _ ha hi ed, run_solo_step c σ i 0 _ _ _ _ ha hi ee]
      simp [hq, hm, run, solo]
    · have ed : exec_task_step c i 0 0 { w with pc := Pc.max_test }
          { s with m_fetch_num_per_loop := q } =
          ({ w with pc := Pc.run }, { s with m_fetch_num_per_loop := q }, true) := by
        simp [exec_task_step, hm]
      refine ⟨3, ?_⟩
      rw [run_solo_step c σ i 2 _ _ _ _ ha hi ea, run_solo_step c σ i 1 _ _ _ _ ha hi eb,
        run_solo_step c σ i 0 _ _ _ _ ha hi ed]
      simp [hq, hm, run, solo]

theorem solo_drains (c : Consts) (σ : Sys) (i : Nat) (ts : List Task) (s : task_service_t)
    (ha : σ.aborted = false) (hi : i < σ.workers.length)
    (hsig : s.m_stop_signal = false) (hf : s.m_fetch_num_per_loop = 0xffffffff)
    (hq : s.m_task_queue.tasks = ts ++ [stop_task]) (hp : ∀ m ∈ ts, m.is_plain = true)
    (hlen : ts.length + 1 < 2 ^ 32) (hg : s.m_thread_group ≠ []) :
    ∃ n w1 s1, run c (upd σ i Worker.fresh s) (solo i n) = upd σ i w1 s1 ∧
      w1.pc = Pc.done ∧ s1.m_stop_signal = true ∧ s1.m_task_queue.tasks = [] ∧
      s1.m_timer_manager.timers = [] ∧ s1.m_thread_group = s.m_thread_group := by
  have hglen : s.m_thread_group.length ≠ 0 := by simpa using hg
  have htake : (ts ++ [stop_task]).take 0xffffffff = ts ++ [stop_task] := by
    apply List.take_of_length_le
    simp
    omega
  have hdrop : (ts ++ [stop_task]).drop 0xffffffff = [] := by
    apply List.drop_eq_nil_of_le
    simp
    omega
  have e1 : exec_task_step c i 0 0 Worker.fresh s =
      ({ Worker.fresh with thread_num := s.m_thread_group.length, pc := Pc.head }, s, true) := by
    simp [exec_task_step, Worker.fresh, hglen]
  have e2 : exec_task_step c i 0 0
      { Worker.fresh with thread_num := s.m_thread_group.length, pc := Pc.head } s =
      ({ Worker.fresh with thread_num := s.m_thread_group.length, pc := Pc.timers }, s, true) := by
    simp [exec_task_step, Worker.fresh, hsig]
  have e3 : exec_task_step c i 0 0
      { Worker.fresh with thread_num := s.m_thread_group.length, pc := Pc.timers } s =
      ({ Worker.fresh with thread_num := s.m_thread_group.length, pc := Pc.io },
        { s with m_timer_manager := (s.m_timer_manager.flush_time 0).exec }, true) := by
    simp [exec_task_step, Worker.fresh]
  have e4 : exec_task_step c i 0 0
      { Worker.fresh with thread_num := s.m_thread_group.length, pc := Pc.io }
      { s with m_timer_manager := (s.m_timer_manager.flush_time 0).exec } =
      ({ Worker.fresh with thread_num := s.m_thread_group.length, pc := Pc.fetch },
        { s with m_timer_manager := (s.m_timer_manager.flush_time 0).exec }, true) := by
    simp [exec_task_step, Worker.fresh, io_multiplex_handler_t.wait_io_notification]
  have e5 : exec_task_step c i 0 0
      { Worker.fresh with thread_num := s.m_thread_group.length, pc := Pc.fetch }
      { s with m_timer_manager := (s.m_timer_manager.flush_time 0).exec } =
      ({ Worker.fresh with
          thread_num := s.m_thread_group.length, pc := Pc.check, tasks := ts ++ [stop_task],
          all_task_num := (ts ++ [stop_task]).length % 2 ^ 32 },
        { s with
          m_timer_manager := (s.m_timer_manager.flush_time 0).exec
          m_task_queue := { s.m_task_queue with tasks := [] } }, true) := by
    simp only [exec_task_step, Worker.fresh, task_queue_t.fetch_task, hf, hq, htake, hdrop,
      List.nil_append]
  have e6 : exec_task_step c i 0 0
      { Worker.fresh with
        thread_num := s.m_thread_group.length, pc := Pc.check, tasks := ts ++ [stop_task],
        all_task_num := (ts ++ [stop_task]).length % 2 ^ 32 }
      { s with
        m_timer_manager := (s.m_timer_manager.flush_time 0).exec
        m_task_queue := { s.m_task_queue with tasks := [] } } =
      ({ Worker.fresh with
          thread_num := s.m_thread_group.length, pc := Pc.adjust, tasks := ts ++ [stop_task],
          all_task_num := (ts ++ [stop_task]).length % 2 ^ 32 },
        { s with
          m_timer_manager := (s.m_timer_manager.flush_time 0).exec
          m_task_queue := { s.m_task_queue with tasks := [] } }, true) := by
    simp [exec_task_step, Worker.fresh]
  obtain ⟨na, e7⟩ := solo_adjust c σ i
    { Worker.fresh with
      thread_num := s.m_thread_group.length, pc := Pc.adjust, tasks := ts ++ [stop_task],
      all_task_num := (ts ++ [stop_task]).length % 2 ^ 32 }
    { s with
      m_timer_manager := (s.m_timer_manager.flush_time 0).exec
      m_task_queue := { s.m_task_queue with tasks := [] } } ha hi rfl
  have e7 : run c (upd σ i
      { Worker.fresh with
        thread_num := s.m_thread_group.length, pc := Pc.adjust, tasks := ts ++ [stop_task],
        all_task_num := (ts ++ [stop_task]).length % 2 ^ 32 }
      { s with
        m_timer_manager := (s.m_timer_manager.flush_time 0).exec
        m_task_queue := { s.m_task_queue with tasks := [] } }) (solo i na) =
      upd σ i
        { Worker.fresh with
          thread_num := s.m_thread_group.length, pc := Pc.run, tasks := ts ++ [stop_task],
          all_task_num := (ts ++ [stop_task]).length % 2 ^ 32 }
        { s with
          m_timer_manager := (s.m_timer_manager.flush_time 0).exec
          m_task_queue := { s.m_task_queue with tasks := [] }
          m_fetch_num_per_loop := calc_fetch_num c ((ts ++ [stop_task]).length % 2 ^ 32)
            s.m_thread_group.length s.m_fetch_num_per_loop } := e7
  obtain ⟨b1, b2, b3⟩ := exec_batch_stop i ts
    { s with
      m_timer_manager := (s.m_timer_manager.flush_time 0).exec
      m_task_queue := { s.m_task_queue with tasks := [] }
      m_fetch_num_per_loop := calc_fetch_num c ((ts ++ [stop_task]).length % 2 ^ 32)
        s.m_thread_group.length s.m_fetch_num_per_loop } hp
  generalize hs8 : exec_batch i (ts ++ [stop_task])
    { s with
      m_timer_manager := (s.m_timer_manager.flush_time 0).exec
      m_task_queue := { s.m_task_queue with tasks := [] }
      m_fetch_num_per_loop := calc_fetch_num c ((ts ++ [stop_task]).length % 2 ^ 32)
        s.m_thread_group.length s.m_fetch_num_per_loop } = s8 at b1 b2 b3
  have hq8 : s8.m_task_queue.tasks = [] := by rw [b1]
  have e9 : exec_task_step c i 0 0
      { Worker.fresh with
        thread_num := s.m_thread_group.length, pc := Pc.run, tasks := [],
        all_task_num := (ts ++ [stop_task]).length % 2 ^ 32 } s8 =
      ({ Worker.fresh with
          thread_num := s.m_thread_group.length, pc := Pc.head, tasks := [],
          all_task_num := (ts ++ [stop_task]).length % 2 ^ 32 }, s8, true) := by
    simp [exec_task_step, Worker.fresh]
  have e10 : exec_task_step c i 0 0
      { Worker.fresh with
        thread_num := s.m_thread_group.length, pc := Pc.head, tasks := [],
        all_task_num := (ts ++ [stop_task]).length % 2 ^ 32 } s8 =
      ({ Worker.fresh with
          thread_num := s.m_thread_group.length, pc := Pc.fin, tasks := [],
          all_task_num := (ts ++ [stop_task]).length % 2 ^ 32 }, s8, true) := by
    simp [exec_task_step, Worker.fresh, b2, task_queue_t.empty, hq8]
  have e11 : exec_task_step c i 0 0
      { Worker.fresh with
        thread_num := s.m_thread_group.length, pc := Pc.fin, tasks := [],
        all_task_num := (ts ++ [stop_task]).length % 2 ^ 32 } s8 =
      ({ Worker.fresh with
          thread_num := s.m_thread_group.length, pc := Pc.done, tasks := [],
          all_task_num := (ts ++ [stop_task]).length % 2 ^ 32 },
        { s8 with m_timer_manager := s8.m_timer_manager.clear }, true) := by
    simp [exec_task_step, Worker.fresh, task_queue_t.size, hq8]
  refine ⟨6 + (na + ((ts ++ [stop_task]).length + 3)), { Worker.fresh with
      thread_num := s.m_thread_group.length, pc := Pc.done, tasks := [],
      all_task_num := (ts ++ [stop_task]).length % 2 ^ 32 },
    { s8 with m_timer_manager := s8.m_timer_manager.clear }, ?_, ?_, ?_, ?_, ?_, ?_⟩
  · rw [solo_add, run_append,
      run_solo_step c σ i 5 _ _ _ _ ha hi e1, run_solo_step c σ i 4 _ _ _ _ ha hi e2,
      run_solo_step c σ i 3 _ _ _ _ ha hi e3, run_solo_step c σ i 2 _ _ _ _ ha hi e4,
      run_solo_step c σ i 1 _ _ _ _ ha hi e5, run_solo_step c σ i 0 _ _ _ _ ha hi e6]
    rw [show run c (upd σ i _ _) (solo i 0) = upd σ i _ _ from rfl]
    rw [solo_add, run_append, e7]
    rw [solo_add, run_append, run_batch c σ i ha hi (ts ++ [stop_task]) [] _ _ rfl (by simp)]
    rw [hs8]
    rw [run_solo_step c σ i 2 _ _ _ _ ha hi e9, run_solo_step c σ i 1 _ _ _ _ ha hi e10,
      run_solo_step c σ i 0 _ _ _ _ ha hi e11]
    rfl
  · rfl
  · exact b2
  · exact hq8
  · rfl
  · exact b3

theorem after_stop_solo (i n : Nat) : ∀ e ∈ solo i n, e.after_stop = true := by
  intro e he
  rw [(List.mem_replicate.1 he).2]
  rfl

theorem leaving_of_upd {K j : Nat} {σ : Sys} {w1 : Worker} {s1 : task_service_t}
    (ha : σ.aborted = false) (hj : σ.joining = true) (hlen : σ.workers.length = K)
    (hjK : j < K)
    (hdone : ∀ i, i < j → ∃ w, σ.workers[i]? = some w ∧ w.pc = Pc.done)
    (hfresh : ∀ i, j < i → i < K → σ.workers[i]? = some Worker.fresh)
    (hpc : w1.pc = Pc.done) (hsig : s1.m_stop_signal = true)
    (hq : s1.m_task_queue.tasks = []) (ht : s1.m_timer_manager.timers = [])
    (hg : s1.m_thread_group ≠ []) : Leaving K (j + 1) (upd σ j w1 s1) :=
  { not_aborted := ha
    joining := hj
    length := by simp [upd, hlen]
    finished := by
      intro i hi
      by_cases hij : i = j
      · subst hij
        exact ⟨w1, by simp only [upd]; exact List.getElem?_set_self (by omega), hpc⟩
      · obtain ⟨w, h1, h2⟩ := hdone i (by omega)
        exact ⟨w, by simp only [upd]; rw [List.getElem?_set_ne (Ne.symm hij)]; exact h1, h2⟩
    fresh := by
      intro i hi hiK
      simp only [upd]
      rw [List.getElem?_set_ne (by omega)]
      exact hfresh i (by omega) hiK
    signal := hsig
    queue := hq
    timers := ht
    group := hg }

theorem Leaving.next {K j : Nat} {σ : Sys} (c : Consts) (h : Leaving K j σ) (hj : j < K) :
    Leaving K (j + 1) (run c σ (solo j 3)) := by
  have hself := upd_self σ j Worker.fresh (h.fresh j (le_refl j) hj)
  obtain ⟨w1, s1, e, hpc, hsig, hq, ht, hg⟩ :=
    solo_leaves c σ j σ.svc h.not_aborted (by rw [h.length]; exact hj) h.signal h.queue h.group
  rw [hself] at e
  rw [e]
  exact leaving_of_upd h.not_aborted h.joining h.length hj h.finished
    (fun i hi hiK => h.fresh i (by omega) hiK) hpc hsig hq ht (by rw [hg]; exact h.group)

theorem Leaving.rest {K j : Nat} {σ : Sys} (c : Consts) (h : Leaving K j σ) (d : Nat)
    (hd : j + d = K) :
    ∃ sch, (∀ e ∈ sch, e.after_stop = true) ∧ Leaving K K (run c σ sch) := by
  induction d generalizing j σ with
  | zero =>
    have : j = K := by omega
    subst this
    exact ⟨[], by simp, h⟩
  | succ d ih =>
    obtain ⟨sch, h1, h2⟩ := ih (h.next c (by omega)) (by omega)
    refine ⟨solo j 3 ++ sch, ?_, ?_⟩
    · intro e he
      rcases List.mem_append.1 he with he | he
      · exact after_stop_solo j 3 e he
      · exact h1 e he
    · rw [run_append]; exact h2

theorem Ready.first {K : Nat} {ts : List Task} {σ : Sys} (c : Consts) (h : Ready K ts σ)
    (hK : 1 ≤ K) (hp : ∀ m ∈ ts, m.is_plain = true) (hlen : ts.length + 1 < 2 ^ 32) :
    ∃ n, Leaving K 1 (run c σ (solo 0 n)) := by
  have hget : ∀ i, i < K → σ.workers[i]? = some Worker.fresh := by
    intro i hi
    rw [h.workers]
    exact List.getElem?_replicate_of_lt hi
  have hwl : σ.workers.length = K := by rw [h.workers]; simp
  have hself := upd_self σ 0 Worker.fresh (hget 0 (by omega))
  obtain ⟨n, w1, s1, e, hpc, hsig, hq, ht, hg⟩ :=
    solo_drains c σ 0 ts σ.svc h.not_aborted (by omega) h.signal h.fetch_num h.queue hp hlen
      h.group
  rw [hself] at e
  refine ⟨n, ?_⟩
  rw [e]
  exact leaving_of_upd h.not_aborted h.joining hwl (by omega) (by intro i hi; omega)
    (fun i _ hiK => hget i hiK) hpc hsig hq ht (by rw [hg]; exact h.group)

theorem Leaving.join {K : Nat} {σ : Sys} (c : Consts) (h : Leaving K K σ) :
    (step c σ Ev.stop_join).stop_ret = some 0 := by
  have hd : all_done σ.workers = true := by
    rw [all_done_iff]
    intro w hw
    obtain ⟨n, hn⟩ := List.mem_iff_getElem?.1 hw
    have hnK : n < K := by
      rw [← h.length]
      by_contra hge
      rw [List.getElem?_eq_none (by omega)] at hn
      simp at hn
    obtain ⟨w1, h1, h2⟩ := h.finished n hnK
    rw [hn] at h1
    cases h1
    exact h2
  simp [step, h.not_aborted, h.joining, hd, stop_asserts, stop_joined, stop_finish,
    task_queue_t.size, timer_manager_t.size, h.queue, h.timers]

theorem run_posts (c : Consts) (σ : Sys) (ts : List Task) (ha : σ.aborted = false) :
    run c σ (ts.map fun m => Ev.post m false) =
      { σ with svc := { σ.svc with
          m_task_queue := { σ.svc.m_task_queue with tasks := σ.svc.m_task_queue.tasks ++ ts } } } := by
  induction ts generalizing σ with
  | nil => simp [run]
  | cons m ts ih =>
    rw [List.map_cons, run_cons, step_submit c σ (Ev.post m false) m ha rfl, ih]
    · simp [task_queue_t.push]
    · exact ha

theorem ready_of_start (c : Consts) (service_name_ : String) (K : Nat) (hK : 1 ≤ K)
    (ts : List Task) :
    Ready K ts (run c (Sys.init service_name_)
      (Ev.start (K : Int) :: ((ts.map fun m => Ev.post m false) ++ [Ev.stop_call]))) := by
  obtain ⟨g1, h1, h2⟩ := start_add_ok 0 K []
  have hg : g1 ≠ [] := by
    intro h
    simp [h] at h2
    omega
  have hst : start (ctor service_name_) (K : Int) (fun _ => true) =
      (0, { ctor service_name_ with
            m_thread_num := (K : Int)
            m_thread_group := g1
            m_task_queue := (ctor service_name_).m_task_queue.initialise true
            m_timer_manager := (ctor service_name_).m_timer_manager.initialise
              (if (K : Int) ≤ 1 then false else true)
            m_io_handler := (ctor service_name_).m_io_handler.initialise
              (if (K : Int) ≤ 1 then false else true)
            m_started := true }) := by
    simp [start, ctor, h1]
  have hstep : step c (Sys.init service_name_) (Ev.start (K : Int)) =
      { Sys.init service_name_ with
        svc := (start (ctor service_name_) (K : Int) (fun _ => true)).2
        start_ret := some 0
        workers := List.replicate g1.length Worker.fresh } := by
    simp only [step, Sys.init, hst]
    simp
  rw [run_cons, run_append, hstep, hst, run_posts c _ ts rfl]
  have hlen : g1.length = K := by simpa using h2
  simp only [run, List.foldl_cons, List.foldl_nil]
  exact
    { not_aborted := by
        simp [step, Sys.init, stop_enter, post_async_stop_signal, the_client, post_client]
      joining := by
        simp [step, Sys.init, stop_enter, post_async_stop_signal, the_client, post_client]
      workers := by
        simp [step, Sys.init, stop_enter, post_async_stop_signal, the_client, post_client, hlen]
      signal := by
        simp [step, Sys.init, stop_enter, post_async_stop_signal, the_client, post_client, ctor]
      fetch_num := by
        simp [step, Sys.init, stop_enter, post_async_stop_signal, the_client, post_client, ctor]
      queue := by
        simp [step, Sys.init, stop_enter, post_async_stop_signal, the_client, post_client, ctor,
          task_queue_t.push, task_queue_t.initialise, stop_task]
      group := by
        simpa [step, Sys.init, stop_enter, post_async_stop_signal, the_client, post_client]
          using hg }

theorem submitted_posts (ts : List Task) :
    submitted (ts.map fun m => Ev.post m false) = ts := by
  induction ts with
  | nil => rfl
  | cons m ts ih => rw [List.map_cons, submitted_cons, ih]; rfl

/-- For every number of threads `K >= 1` and every list of fewer than `2 ^ 32 - 1` tasks
there is a run of the shape above in which `stop` returns 0: the client posts the
tasks and calls `stop`, thread 0 drains and invokes everything, the other threads
find the stop signal set and the queue empty, and `join_all` returns. -/
theorem shutdown_completes (c : Consts) (service_name_ : String) (K : Nat) (hK : 1 ≤ K)
    (ts : List Task) (hp : ∀ m ∈ ts, m.is_plain = true) (hlen : ts.length + 1 < 2 ^ 32) :
    ∃ pre post, (∀ e ∈ pre, e.before_stop = true) ∧ (∀ e ∈ post, e.after_stop = true) ∧
      submitted pre = ts ∧
      (run c (Sys.init service_name_)
        (Ev.start (K : Int) :: (pre ++ Ev.stop_call :: post))).stop_ret = some 0 := by
  have hR := ready_of_start c service_name_ K hK ts
  obtain ⟨n, hL1⟩ := hR.first c hK hp hlen
  obtain ⟨sch, hs1, hs2⟩ := hL1.rest c (K - 1) (by omega)
  refine ⟨ts.map fun m => Ev.post m false, solo 0 n ++ (sch ++ [Ev.stop_join]),
    ?_, ?_, submitted_posts ts, ?_⟩
  · intro e he
    obtain ⟨m, hm, rfl⟩ := List.mem_map.1 he
    simpa [Ev.before_stop] using hp m hm
  · intro e he
    rcases List.mem_append.1 he with he | he
    · exact after_stop_solo 0 _ e he
    · rcases List.mem_append.1 he with he | he
      · exact hs1 e he
      · rw [List.mem_singleton.1 he]; rfl
  · have hsplit : Ev.start (K : Int) :: ((ts.map fun m => Ev.post m false) ++
        Ev.stop_call :: (solo 0 n ++ (sch ++ [Ev.stop_join]))) =
        (Ev.start (K : Int) :: ((ts.map fun m => Ev.post m false) ++ [Ev.stop_call])) ++
          (solo 0 n ++ (sch ++ [Ev.stop_join])) := by
      simp
    rw [hsplit, run_append, run_append, run_append]
    exact hs2.join c

/-! ## No task is lost or run twice across shutdown (C1) -/

/-- C1: take a freshly constructed service started with `K >= 1` threads, any number of
tasks (and timer or descriptor registrations) submitted by client threads, then the
call of `stop`, which posts the stop-signal task; interleave the steps of the worker
threads with these calls in any way (`pre` before the stop request, `post` after
it). Once every thread has left the loop of `exec_task`, the callables invoked are,
up to order, exactly the submitted ones and the stop-signal task: none is lost, none
is invoked twice; a task submitted once has been invoked exactly once. And such runs
exist: for every list of fewer than `2 ^ 32 - 1` tasks there is an interleaving in
which every thread leaves the loop and `stop` returns 0. -/
theorem tasks_invoked_exactly_once (c : Consts) (service_name_ : String) (K : Nat) (hK : 1 ≤ K)
    (pre post : List Ev) (hpre : ∀ e ∈ pre, e.before_stop = true)
    (hpost : ∀ e ∈ post, e.after_stop = true)
    (hleft : all_left (run c (Sys.init service_name_)
      (Ev.start (K : Int) :: (pre ++ Ev.stop_call :: post))).workers = true) :
    (calls (run c (Sys.init service_name_)
      (Ev.start (K : Int) :: (pre ++ Ev.stop_call :: post))).svc.trace).Perm
        (submitted pre ++ [stop_task]) ∧
    (∀ m ∈ submitted pre, (submitted pre).count m = 1 →
      (calls (run c (Sys.init service_name_)
        (Ev.start (K : Int) :: (pre ++ Ev.stop_call :: post))).svc.trace).count m = 1) ∧
    (∀ ts : List Task, (∀ m ∈ ts, m.is_plain = true) → ts.length + 1 < 2 ^ 32 →
      ∃ pre1 post1, (∀ e ∈ pre1, e.before_stop = true) ∧ (∀ e ∈ post1, e.after_stop = true) ∧
        submitted pre1 = ts ∧
        all_left (run c (Sys.init service_name_)
          (Ev.start (K : Int) :: (pre1 ++ Ev.stop_call :: post1))).workers = true ∧
        (run c (Sys.init service_name_)
          (Ev.start (K : Int) :: (pre1 ++ Ev.stop_call :: post1))).stop_ret = some 0) := by
  have hperm : (calls (run c (Sys.init service_name_)
      (Ev.start (K : Int) :: (pre ++ Ev.stop_call :: post))).svc.trace).Perm
        (submitted pre ++ [stop_task]) := by
    rcases run_shape c service_name_ K hK pre post hpre hpost with hI | hS
    · exact (hI.when_all_left hleft).2.2.2
    · exact hS.perm
  refine ⟨hperm, ?_, ?_⟩
  · intro m hm h1
    have hne : m ≠ stop_task := by
      rintro rfl
      have := submitted_plain pre hpre _ hm
      simp [stop_task, Task.is_plain] at this
    rw [hperm.count_eq, List.count_append, h1, List.count_singleton]
    simp [Ne.symm hne]
  · intro ts hp hlen
    obtain ⟨pre1, post1, h1, h2, h3, h4⟩ := shutdown_completes c service_name_ K hK ts hp hlen
    refine ⟨pre1, post1, h1, h2, h3, ?_, h4⟩
    rcases run_shape c service_name_ K hK pre1 post1 h1 h2 with hI | hS
    · rw [hI.ret] at h4; simp at h4
    · rw [hS.workers]; rfl

/-- C1 on the sample run: two threads, three tasks and a timer registration. -/
theorem tasks_invoked_exactly_once_witness :
    (calls (run demo_consts (Sys.init "svc")
      (Ev.start ((2 : Nat) : Int) :: (demo_pre ++ Ev.stop_call :: demo_post))).svc.trace).Perm
        (submitted demo_pre ++ [stop_task]) :=
  (tasks_invoked_exactly_once demo_consts "svc" 2 (by decide) demo_pre demo_post (by decide) (by decide)
    (by decide)).1

/-! ## After `stop` the queue and the timer manager are empty (C2) -/

/-- For tasks and timers that make no call into the service: take a freshly constructed
service started with `K >= 1` threads and any such tasks and timers submitted before
the stop request, under any interleaving with the steps of the worker threads. No
assertion fails, neither the one at the end of `exec_task` nor the two of `stop`
(`aborted` stays false, before and after the stop request); and when `stop` has
returned 0 the task queue has size 0 and the timer manager has size 0. And `stop` can
return 0: for every list of fewer than `2 ^ 32 - 1` tasks there is an interleaving in
which it does. -/
theorem shutdown_drains_plain_tasks (c : Consts) (service_name_ : String) (K : Nat)
    (hK : 1 ≤ K) (pre post : List Ev) (hpre : ∀ e ∈ pre, e.before_stop = true)
    (hpost : ∀ e ∈ post, e.after_stop = true) :
    (run c (Sys.init service_name_) (Ev.start (K : Int) :: pre)).aborted = false ∧
    (run c (Sys.init service_name_)
      (Ev.start (K : Int) :: (pre ++ Ev.stop_call :: post))).aborted = false ∧
    ((run c (Sys.init service_name_)
      (Ev.start (K : Int) :: (pre ++ Ev.stop_call :: post))).stop_ret = some 0 →
      (run c (Sys.init service_name_)
        (Ev.start (K : Int) :: (pre ++ Ev.stop_call :: post))).svc.m_task_queue.size = 0 ∧
      (run c (Sys.init service_name_)
        (Ev.start (K : Int) :: (pre ++ Ev.stop_call :: post))).svc.m_timer_manager.size = 0) ∧
    (∀ ts : List Task, (∀ m ∈ ts, m.is_plain = true) → ts.length + 1 < 2 ^ 32 →
      ∃ pre1 post1, (∀ e ∈ pre1, e.before_stop = true) ∧ (∀ e ∈ post1, e.after_stop = true) ∧
        submitted pre1 = ts ∧
        (run c (Sys.init service_name_)
          (Ev.start (K : Int) :: (pre1 ++ Ev.stop_call :: post1))).stop_ret = some 0) := by
  refine ⟨?_, ?_, ?_, ?_⟩
  · rw [run_cons]
    exact ((inv_of_start c service_name_ K hK).inv_run_before c pre hpre).not_aborted
  · rcases run_shape c service_name_ K hK pre post hpre hpost with hI | hS
    · exact hI.not_aborted
    · exact hS.not_aborted
  · intro hret
    rcases run_shape c service_name_ K hK pre post hpre hpost with hI | hS
    · rw [hI.ret] at hret; simp at hret
    · simp [task_queue_t.size, timer_manager_t.size, hS.queue, hS.timers]
  · intro ts hp hlen
    exact shutdown_completes c service_name_ K hK ts hp hlen

/-- The sample run with plain tasks: `stop` returns 0, queue and timer manager are
empty. -/
theorem shutdown_drains_plain_tasks_sample :
    (run demo_consts (Sys.init "svc")
      (Ev.start ((2 : Nat) : Int) :: (demo_pre ++ Ev.stop_call :: demo_post))).stop_ret = some 0 ∧
    (run demo_consts (Sys.init "svc")
      (Ev.start ((2 : Nat) : Int) :: (demo_pre ++ Ev.stop_call :: demo_post))).svc.m_task_queue.size = 0 ∧
    (run demo_consts (Sys.init "svc")
      (Ev.start ((2 : Nat) : Int) :: (demo_pre ++ Ev.stop_call :: demo_post))).svc.m_timer_manager.size = 0 :=
  ⟨by decide,
   (shutdown_drains_plain_tasks demo_consts "svc" 2 (by decide) demo_pre demo_post
      (by decide) (by decide)).2.2.1 (by decide)⟩

/-- C2, failing input: a freshly constructed service is started with 2 threads and the
client posts one task `p` whose body posts a callable with `exec_local_ = false`
(or registers a timer), before the stop request. Thread 0 drains `p`; `stop` posts
the stop-signal task; thread 1 drains and invokes it and leaves the loop at line 138,
the queue being empty; thread 0 invokes `p`, whose call of `post` (of
`register_timer`, with `m_thread_num = 2`) pushes onto the queue at line 217. No
assertion has failed so far, thread 1 stands at line 193 after the loop and the queue
holds one callable. The next step of thread 1 reaches
`assert(0 == m_task_queue.size())` at line 195 with a queue of size 1: the assertion
at the end of `exec_task` is reached and fails, and `stop` does not return. -/
theorem worker_exit_assertion_fails :
    submitted (race_pre posting_task) = [posting_task] ∧
    (∀ e ∈ race_post, e.after_stop = true) ∧
    (run demo_consts (Sys.init "svc") (Ev.start 2 :: race_pre posting_task)).start_ret
      = some 0 ∧
    (run demo_consts (Sys.init "svc")
      (Ev.start 2 :: (race_pre posting_task ++ Ev.stop_call :: race_post.dropLast))).aborted
      = false ∧
    ((run demo_consts (Sys.init "svc")
      (Ev.start 2 :: (race_pre posting_task ++ Ev.stop_call :: race_post.dropLast))).workers.map
        fun w => (w.pc, w.tasks)) = [(Pc.run, []), (Pc.fin, [])] ∧
    (run demo_consts (Sys.init "svc")
      (Ev.start 2 ::
        (race_pre posting_task ++ Ev.stop_call :: race_post.dropLast))).svc.m_task_queue.tasks
      = [Task.user 1 []] ∧
    (run demo_consts (Sys.init "svc")
      (Ev.start 2 :: (race_pre posting_task ++ Ev.stop_call :: race_post))).aborted = true ∧
    (run demo_consts (Sys.init "svc")
      (Ev.start 2 :: (race_pre posting_task ++ Ev.stop_call :: race_post))).svc.m_task_queue.size
      = 1 ∧
    (run demo_consts (Sys.init "svc")
      (Ev.start 2 ::
        (race_pre posting_task ++ Ev.stop_call :: (race_post ++ [Ev.stop_join])))).stop_ret
      = none ∧
    (run demo_consts (Sys.init "svc")
      (Ev.start 2 :: (race_pre timer_task ++ Ev.stop_call :: race_post.dropLast))).aborted
      = false ∧
    (run demo_consts (Sys.init "svc")
      (Ev.start 2 ::
        (race_pre timer_task ++ Ev.stop_call :: race_post.dropLast))).svc.m_task_queue.tasks
      = [Task.timer_register ⟨50, 7, false, 0⟩] ∧
    (run demo_consts (Sys.init "svc")
      (Ev.start 2 :: (race_pre timer_task ++ Ev.stop_call :: race_post))).aborted = true := by
  decide
end task_service
end chaos
